import Mathlib

/-!
Verification development for the postural-index repository.

The development shallowly embeds the core of the repository in Lean:

* `cbm_measurement.py` — homogeneous 4x4 transforms (`rotate_x`, `translate`,
  `back_model_matrix`), the grid-to-mesh builder (`create_vertices`,
  `create_triangles`, `create_normals`) and the trimming step
  (`remove_unused_pins`) of class `CbmMeasurement`;
* `registration.py` — the dispatch logic of `Registration.register`, the
  result assembly of `Registration.affine_registration`, and the
  population-averaging algorithm shared by
  `Registration.calculate_average_mesh` and
  `MeasurementManager._create_normal_measurement`.

Floating point numbers are modelled as rationals.  The only transcendental
values the code uses are `tan((angle - 90) * pi / 180)` inside
`remove_unused_pins` and `cos`/`sin` of rotation angles inside `rotate_x`;
the embedding passes those values as explicit rational parameters
(`tanTheta`, and the pair `c`, `s` of a rotation's cosine and sine), so all
definitions stay executable.  The angles the verified claims need
(`-90` and `0` degrees) have exact rational cosine and sine:
`cos (-90 deg) = 0`, `sin (-90 deg) = -1`, `cos 0 = 1`, `sin 0 = 0`.
-/

/-- A 3-d point or vector with rational coordinates (a row of the numpy
`V` arrays of the source). -/
structure Vec3 where
  x : ℚ
  y : ℚ
  z : ℚ
deriving DecidableEq

/-- Componentwise addition of vectors (numpy `+` on rows). -/
def vadd (a b : Vec3) : Vec3 := ⟨a.x + b.x, a.y + b.y, a.z + b.z⟩

/-- Componentwise subtraction of vectors (numpy `-` on rows). -/
def vsub (a b : Vec3) : Vec3 := ⟨a.x - b.x, a.y - b.y, a.z - b.z⟩

/-- Scalar multiple of a vector. -/
def vsmul (c : ℚ) (a : Vec3) : Vec3 := ⟨c * a.x, c * a.y, c * a.z⟩

/-- The cross product `np.cross` used by `create_normals`. -/
def cross (u v : Vec3) : Vec3 :=
  ⟨u.y * v.z - u.z * v.y, u.z * v.x - u.x * v.z, u.x * v.y - u.y * v.x⟩

/-- Squared euclidean norm.  `np.linalg.norm` is its square root; the code
only compares norms (`argmin`) or tests them against zero, and squaring is
strictly monotone on nonnegatives, so the squared norm is an exact proxy. -/
def sqnorm (a : Vec3) : ℚ := a.x * a.x + a.y * a.y + a.z * a.z

/-- The zero vector. -/
def v3zero : Vec3 := ⟨0, 0, 0⟩

/-- A homogeneous 4x4 matrix (numpy array, row index first). -/
abbrev Mat4 := Fin 4 → Fin 4 → ℚ

/-- Builds a 4x4 matrix from its sixteen entries, row by row. -/
def mat4 (a00 a01 a02 a03 a10 a11 a12 a13 a20 a21 a22 a23 a30 a31 a32 a33 : ℚ) : Mat4 :=
  fun i j =>
    match i.val, j.val with
    | 0, 0 => a00
    | 0, 1 => a01
    | 0, 2 => a02
    | 0, _ => a03
    | 1, 0 => a10
    | 1, 1 => a11
    | 1, 2 => a12
    | 1, _ => a13
    | 2, 0 => a20
    | 2, 1 => a21
    | 2, 2 => a22
    | 2, _ => a23
    | _, 0 => a30
    | _, 1 => a31
    | _, 2 => a32
    | _, _ => a33

/-- Matrix product `A @ B` of two 4x4 matrices. -/
def matMul (A B : Mat4) : Mat4 := fun i j =>
  A i 0 * B 0 j + A i 1 * B 1 j + A i 2 * B 2 j + A i 3 * B 3 j

/-- The 4x4 identity matrix `np.identity(4)`. -/
def idMat4 : Mat4 := mat4 1 0 0 0 0 1 0 0 0 0 1 0 0 0 0 1

/-- Embeds `rotate_x(M, angle)` of `cbm_measurement.py`.  The source takes
the angle in degrees and forms the rotation matrix from `np.cos(th)` and
`np.sin(th)` of the converted radian angle `th`; here the rotation is given
directly by that cosine `c` and sine `s`.  As in the source the input is
right-multiplied by the rotation matrix. -/
def rotate_x (M : Mat4) (c s : ℚ) : Mat4 :=
  matMul M (mat4 1 0 0 0 0 c (-s) 0 0 s c 0 0 0 0 1)

/-- Embeds `translate(M, t)` of `cbm_measurement.py`: right-multiplication
by a translation matrix whose last row is `(t0, t1, t2, 1)` (the source
keeps vertices as row vectors, so translation lives in the bottom row). -/
def translateM (M : Mat4) (t : Vec3) : Mat4 :=
  matMul M (mat4 1 0 0 0 0 1 0 0 0 0 1 0 t.x t.y t.z 1)

/-- Applies a homogeneous transform to a point as the source does:
the row vector `(x, y, z, 1)` is multiplied on the right by the matrix
(`V @ T`) and the homogeneous column is dropped. -/
def applyTransform (T : Mat4) (v : Vec3) : Vec3 :=
  ⟨v.x * T 0 0 + v.y * T 1 0 + v.z * T 2 0 + T 3 0,
   v.x * T 0 1 + v.y * T 1 1 + v.z * T 2 1 + T 3 1,
   v.x * T 0 2 + v.y * T 1 2 + v.z * T 2 2 + T 3 2⟩

/-- `self.x_resolution` of `CbmMeasurement.__init__` (metres). -/
def x_resolution : ℚ := 0.04445

/-- `self.y_resolution` of `CbmMeasurement.__init__` (metres). -/
def y_resolution : ℚ := 0.04445

/-- `self.height_from_base_to_back` after the cm-to-metre conversion. -/
def height_from_base_to_back : ℚ := 2 / 100

/-- `self.depth_from_measured_pin_to_rotation_axis` after conversion. -/
def depth_from_measured_pin_to_rotation_axis : ℚ := 215 / 1000

/-- `self.height_from_measured_pin_to_rotation_axis` after conversion. -/
def height_from_measured_pin_to_rotation_axis : ℚ := 2 / 100

/-- The `base_model_matrix` property: the identity. -/
def base_model_matrix : Mat4 := idMat4

/-- Embeds the `back_model_matrix` property.  The source composes, in this
textual order: the rest-pose orientation `rotate_x(M, -90)` (whose cosine
and sine are exactly `0` and `-1`), a translation to the physical rotation
pivot, `rotate_x(M, recline_angle - 90)` — whose cosine and sine are the
parameters `c` and `s` here — the translation back from the pivot, the
pointer-position translation along the depth axis, and the base-to-back
gap translation along the vertical axis. -/
def back_model_matrix (c s pointer_position : ℚ) : Mat4 :=
  let M := idMat4
  let M := rotate_x M 0 (-1)
  let M := translateM M ⟨0, -depth_from_measured_pin_to_rotation_axis,
                        -height_from_measured_pin_to_rotation_axis⟩
  let M := rotate_x M c s
  let M := translateM M ⟨0, depth_from_measured_pin_to_rotation_axis,
                        height_from_measured_pin_to_rotation_axis⟩
  let M := translateM M ⟨0, pointer_position, 0⟩
  translateM M ⟨0, 0, height_from_base_to_back⟩

/-- Number of rows of a depth matrix (`np.shape(M)[0]`). -/
def nrows (M : List (List ℚ)) : ℕ := M.length

/-- Number of columns of a depth matrix (`np.shape(M)[1]`; numpy arrays
are rectangular, so the first row's length is the column count). -/
def ncols (M : List (List ℚ)) : ℕ := (M.headD []).length

/-- Entry `M[r][c]` of a depth matrix. -/
def entryAt (M : List (List ℚ)) (r c : ℕ) : ℚ := (M.getD r []).getD c 0

/-- Embeds `CbmMeasurement.create_vertices(M, T)`.  The source builds the
flat arrays `x[i] = (i mod C) * x_resolution`,
`y[i] = (R - 1 - i div C) * y_resolution` (the comprehension loops `y`
downward from `R` to `1` and stores `y - 1`, so flat block `j` carries the
value `R - 1 - j`), and `z[i] = -M[i div C][i mod C]` (`-np.reshape(M, ...)`
is the row-major flattening, negated); each homogeneous row is then
multiplied by `T` and the `w` column is dropped.  The resolutions are the
`self.x_resolution` and `self.y_resolution` fields, passed explicitly. -/
def create_vertices (xr yr : ℚ) (M : List (List ℚ)) (T : Mat4) : List Vec3 :=
  (List.range (nrows M * ncols M)).map fun i =>
    applyTransform T
      ⟨((i % ncols M : ℕ) : ℚ) * xr,
       ((nrows M - 1 - i / ncols M : ℕ) : ℚ) * yr,
       -entryAt M (i / ncols M) (i % ncols M)⟩

/-- A triangle: an ordered triple of vertex indices (a row of the `T`
arrays of the source). -/
abbrev Tri := ℕ × ℕ × ℕ

/-- The two triangles the loop body of `create_triangles` stores for grid
square `idx` (`C` is the column count): `v1 = idx + idx div (C - 1)`,
`v2 = v1 + 1`, `v3 = v2 + C`, `v4 = v1 + C`, triangles `(v1, v3, v2)` and
`(v3, v1, v4)`. -/
def cell_triangle_pair (C idx : ℕ) : Tri × Tri :=
  let v1 := idx + idx / (C - 1)
  let v2 := v1 + 1
  let v3 := v2 + C
  let v4 := v1 + C
  ((v1, v3, v2), (v3, v1, v4))

/-- Flattens the per-square triangle pairs in storage order: the source
writes the first triangle of square `idx` at row `2 * idx` and the second
at row `2 * idx + 1`. -/
def pairJoin : List (Tri × Tri) → List Tri
  | [] => []
  | p :: ps => p.1 :: p.2 :: pairJoin ps

/-- Embeds `CbmMeasurement.create_triangles(M)`.  The source raises
`ValueError` when either grid dimension is below 2 (modelled as `none`),
and otherwise fills `2 * (R - 1) * (C - 1)` triangle rows as in
`cell_triangle_pair`. -/
def create_triangles (M : List (List ℚ)) : Option (List Tri) :=
  if nrows M < 2 then none
  else if ncols M < 2 then none
  else some (pairJoin ((List.range ((nrows M - 1) * (ncols M - 1))).map
    (cell_triangle_pair (ncols M))))

/-- Embeds `CbmMeasurement.create_normals(V, T)`: for each triangle row
`(t0, t1, t2)` the source reads `v1 = V[t0]`, `v2 = V[t1]`, `v3 = V[t2]`
and stores `np.cross(v1 - v3, v1 - v2)`. -/
def create_normals (V : List Vec3) (T : List Tri) : List Vec3 :=
  T.map fun t =>
    let p1 := V.getD t.1 v3zero
    let p2 := V.getD t.2.1 v3zero
    let p3 := V.getD t.2.2 v3zero
    cross (vsub p1 p3) (vsub p1 p2)

/-- The cutoff depth of `remove_unused_pins`:
`cutoff_depth = pointer_position - height_from_measured_pin_to_rotation_axis * tan(theta)`
with `theta = (recline_angle - 90) * pi / 180`.  The transcendental value
`tan(theta)` is the explicit parameter `tanTheta`. -/
def cutoff_depth (tanTheta pointer_position : ℚ) : ℚ :=
  pointer_position - height_from_measured_pin_to_rotation_axis * tanTheta

/-- The vertex rows `remove_unused_pins` keeps.  The source computes the
boolean mask `vertices_to_remove = ~np.greater_equal(V[:,1], cutoff_depth)`
— true exactly where `y < cutoff_depth` — and selects those rows with
`V = V[vertices_to_remove, :]`; the rows that remain are therefore the
ones whose `y` coordinate is strictly below the cutoff. -/
def keptVertices (tanTheta pointer_position : ℚ) (V : List Vec3) : List Vec3 :=
  V.filter fun v => decide (v.y < cutoff_depth tanTheta pointer_position)

/-- The list `indices` of `remove_unused_pins`: the positions whose mask
entry is `False`, i.e. the positions `i` with
`V[i].y >= cutoff_depth` — the vertices that are dropped. -/
def removedIndices (tanTheta pointer_position : ℚ) (V : List Vec3) : List ℕ :=
  (List.range V.length).filter fun i =>
    decide (¬ (V.getD i v3zero).y < cutoff_depth tanTheta pointer_position)

/-- The triangle rows `remove_unused_pins` keeps: the source removes every
triangle containing a reference to a removed vertex
(`np.isin(T, indices)` followed by `~np.any(..., axis=1)`). -/
def keptTriangles (tanTheta pointer_position : ℚ) (V : List Vec3) (T : List Tri) : List Tri :=
  T.filter fun t =>
    decide (¬ (t.1 ∈ removedIndices tanTheta pointer_position V ∨
               t.2.1 ∈ removedIndices tanTheta pointer_position V ∨
               t.2.2 ∈ removedIndices tanTheta pointer_position V))

/-- All vertex indices appearing in a triangle list, in row order — the
flattened view `np.min`/`np.max` reduce over. -/
def allIndices : List Tri → List ℕ
  | [] => []
  | t :: ts => t.1 :: t.2.1 :: t.2.2 :: allIndices ts

/-- Minimum of a list of naturals; `none` on the empty list, where
`np.min` raises `ValueError`. -/
def natListMin : List ℕ → Option ℕ
  | [] => none
  | x :: xs =>
    match natListMin xs with
    | none => some x
    | some m => some (if x ≤ m then x else m)

/-- Maximum of a list of naturals; `none` on the empty list. -/
def natListMax : List ℕ → Option ℕ
  | [] => none
  | x :: xs =>
    match natListMax xs with
    | none => some x
    | some m => some (if x ≤ m then m else x)

/-- Embeds `CbmMeasurement.remove_unused_pins(V, T)`: keep the vertex rows
of `keptVertices`, keep the triangle rows of `keptTriangles`, then shift
every surviving triangle index down by `np.min(T)`, the smallest surviving
index.  When no triangle survives `np.min` raises on an empty array,
modelled as `none`. -/
def remove_unused_pins (tanTheta pointer_position : ℚ) (V : List Vec3) (T : List Tri) :
    Option (List Vec3 × List Tri) :=
  match natListMin (allIndices (keptTriangles tanTheta pointer_position V T)) with
  | none => none
  | some m => some (keptVertices tanTheta pointer_position V,
      (keptTriangles tanTheta pointer_position V T).map fun t => (t.1 - m, t.2.1 - m, t.2.2 - m))

/-- Whether the vertex at position `i` of `V` survives the trim, i.e. its
depth-axis coordinate is strictly below the cutoff. -/
def vertexSurvives (tanTheta pointer_position : ℚ) (V : List Vec3) (i : ℕ) : Bool :=
  decide ((V.getD i v3zero).y < cutoff_depth tanTheta pointer_position)

/-- A 3x3 linear map (row index first), as returned by the external CPD
solver and consumed by open3d's `rotate`. -/
abbrev Mat3 := Fin 3 → Fin 3 → ℚ

/-- Builds a 3x3 matrix from its nine entries, row by row. -/
def mat3 (a00 a01 a02 a10 a11 a12 a20 a21 a22 : ℚ) : Mat3 :=
  fun i j =>
    match i.val, j.val with
    | 0, 0 => a00
    | 0, 1 => a01
    | 0, 2 => a02
    | 1, 0 => a10
    | 1, 1 => a11
    | 1, 2 => a12
    | _, 0 => a20
    | _, 1 => a21
    | _, _ => a22

/-- Applies a 3x3 matrix to a column vector, `R @ v`. -/
def matVec3 (R : Mat3) (v : Vec3) : Vec3 :=
  ⟨R 0 0 * v.x + R 0 1 * v.y + R 0 2 * v.z,
   R 1 0 * v.x + R 1 1 * v.y + R 1 2 * v.z,
   R 2 0 * v.x + R 2 1 * v.y + R 2 2 * v.z⟩

/-- The data of an `o3d.geometry.TriangleMesh` the core code touches:
vertex positions and triangle connectivity. -/
structure O3dMesh where
  vertices : List Vec3
  triangles : List Tri
deriving DecidableEq

/-- Sum of a list of vectors. -/
def vec3Sum (l : List Vec3) : Vec3 := l.foldl vadd v3zero

/-- Open3d's `get_center()`: the mean of the vertex coordinates.  This is
the default rotation centre of `TriangleMesh.rotate(R)`. -/
def get_center (m : O3dMesh) : Vec3 :=
  vsmul (1 / (m.vertices.length : ℚ)) (vec3Sum m.vertices)

/-- Open3d's `TriangleMesh.rotate(R)` with its default centre argument:
every vertex `v` becomes `R @ (v - center) + center` where `center` is
`get_center()`; triangle connectivity is untouched. -/
def o3d_rotate (m : O3dMesh) (R : Mat3) : O3dMesh :=
  let c := get_center m
  { m with vertices := m.vertices.map fun v => vadd (matVec3 R (vsub v c)) c }

/-- Open3d's `TriangleMesh.translate(t)`: every vertex is shifted by `t`;
triangle connectivity is untouched. -/
def o3d_translate (m : O3dMesh) (t : Vec3) : O3dMesh :=
  { m with vertices := m.vertices.map fun v => vadd v t }

/-- Embeds `Registration.affine_registration(target, source, callback)`.
The pycpd solver `AffineRegistration(X, Y).register()` is external
iterative code; its estimated linear map and translation are the abstract
parameters `B` and `t` here (the solver's own moved point set is discarded
by the source).  The source then builds the result as
`TY = copy.deepcopy(source); TY.rotate(B); TY.translate(t)` — note that
open3d's `rotate` pivots about the mesh centre by default.  The `target`
mesh only feeds the external solver. -/
def affine_registration (target source : O3dMesh) (B : Mat3) (t : Vec3) : O3dMesh :=
  o3d_translate (o3d_rotate source B) t

/-- The possible outcomes of `Registration.register` as the Python caller
sees them: the bare `None` returned for an empty input list (after a
printed message), a single unwrapped mesh, a list of meshes, or a raised
`NameError` carrying its message. -/
inductive RegisterResult where
  | noneResult : RegisterResult
  | single : O3dMesh → RegisterResult
  | many : List O3dMesh → RegisterResult
  | error : String → RegisterResult
deriving DecidableEq

/-- Whether a `register` outcome is a raised error. -/
def isError : RegisterResult → Bool
  | RegisterResult.error _ => true
  | _ => false

/-- The `NameError` message raised for an unrecognized method string. -/
def invalid_method_message (method : String) : String :=
  method ++ " is not a valid registration type."

/-- The registration loop of `Registration.register`: each remaining mesh
is registered onto the fixed first mesh `X`, in order; an unrecognized
method raises on the first iteration.  The per-pair solvers (which wrap
the external pycpd iterations) are the abstract parameters `solveAffine`
and `solveSoft`, each taking the target then the source. -/
def registerLoop (solveAffine solveSoft : O3dMesh → O3dMesh → O3dMesh)
    (X : O3dMesh) (method : String) : List O3dMesh → Except String (List O3dMesh)
  | [] => Except.ok []
  | Y :: ys =>
    if method = "affine" then
      (registerLoop solveAffine solveSoft X method ys).map
        (fun rest => solveAffine X Y :: rest)
    else if method = "soft" then
      (registerLoop solveAffine solveSoft X method ys).map
        (fun rest => solveSoft X Y :: rest)
    else Except.error (invalid_method_message method)

/-- Embeds `Registration.register(measurements, method, callback)`.  An
empty list prints a message and returns `None`; a singleton list returns
its element unwrapped, before any method check; otherwise the first mesh
is the fixed target, the result list starts with it, and each further mesh
is registered onto it ("affine" and "soft" are the only recognized
methods — any other string raises `NameError`). -/
def register (solveAffine solveSoft : O3dMesh → O3dMesh → O3dMesh)
    (measurements : List O3dMesh) (method : String) : RegisterResult :=
  match measurements with
  | [] => RegisterResult.noneResult
  | [m] => RegisterResult.single m
  | X :: rest =>
    match registerLoop solveAffine solveSoft X method rest with
    | Except.ok tys => RegisterResult.many (X :: tys)
    | Except.error e => RegisterResult.error e

/-- The index `np.argmin` returns: the position of the first minimal
element.  The source applies it to a vector of euclidean norms; since
squaring is strictly monotone on nonnegatives, the first minimal squared
norm sits at the same position. -/
def argminIdx : List ℚ → ℕ
  | [] => 0
  | [_] => 0
  | x :: y :: ys =>
    let j := argminIdx (y :: ys)
    if (y :: ys).getD j 0 < x then j + 1 else 0

/-- The inner helper `get_nearest_displacement_vectors(X, Y)` shared by
`Registration.calculate_average_mesh` and
`MeasurementManager._create_normal_measurement`: for every point `v` of
`X`, the displacement `Y[idx] - v` to the nearest point of `Y` (by
euclidean distance, first minimum on ties). -/
def get_nearest_displacement_vectors (X Y : List Vec3) : List Vec3 :=
  X.map fun v =>
    let d := Y.map fun yv => sqnorm (vsub v yv)
    vsub (Y.getD (argminIdx d) v3zero) v

/-- `np.mean(displacement_vectors, axis = 0)`: the componentwise mean
across the outer list, one averaged vector per inner position. -/
def mean_axis0 (ls : List (List Vec3)) : List Vec3 :=
  (List.range (ls.headD []).length).map fun i =>
    vsmul (1 / (ls.length : ℚ))
      (ls.foldl (fun acc l => vadd acc (l.getD i v3zero)) v3zero)

/-- Embeds the population-averaging algorithm of
`MeasurementManager._create_normal_measurement` (the same core as
`Registration.calculate_average_mesh`, which only adds a colour map on
top): the first mesh is the reference; for every other mesh the nearest
displacement field is computed, the fields are averaged pointwise, and
the averaged displacement is added to the reference vertices while the
reference triangle list is kept.  An empty population prints and returns
`None`; a singleton returns the reference data unchanged. -/
def create_normal_measurement (measurements : List O3dMesh) :
    Option (List Vec3 × List Tri) :=
  match measurements with
  | [] => none
  | [m] => some (m.vertices, m.triangles)
  | m0 :: rest =>
    some (List.zipWith vadd m0.vertices
      (mean_axis0 ((rest.map O3dMesh.vertices).map
        (fun Mv => get_nearest_displacement_vectors m0.vertices Mv))),
      m0.triangles)

/-- A matrix whose last column is that of an affine transform, so that
applying it to a homogeneous row vector with `w = 1` again yields `w = 1`.
All matrices built by the source have this shape. -/
def AffineCol (M : Mat4) : Prop := M 0 3 = 0 ∧ M 1 3 = 0 ∧ M 2 3 = 0 ∧ M 3 3 = 1

theorem vec3_ext (a b : Vec3) (hx : a.x = b.x) (hy : a.y = b.y) (hz : a.z = b.z) : a = b := by
  cases a
  cases b
  simp_all

@[simp] theorem vadd_v3zero (a : Vec3) : vadd a v3zero = a := by
  apply vec3_ext <;> simp [vadd, v3zero]

theorem vsub_self_eq (a : Vec3) : vsub a a = v3zero := by
  apply vec3_ext <;> simp [vsub, v3zero]

@[simp] theorem vsmul_of_v3zero (c : ℚ) : vsmul c v3zero = v3zero := by
  apply vec3_ext <;> simp [vsmul, v3zero]

theorem sqnorm_nonneg (a : Vec3) : 0 ≤ sqnorm a := by
  unfold sqnorm
  nlinarith [mul_self_nonneg a.x, mul_self_nonneg a.y, mul_self_nonneg a.z]

theorem sqnorm_eq_zero_imp (a : Vec3) (h : sqnorm a = 0) : a = v3zero := by
  unfold sqnorm at h
  have hx2 : a.x * a.x = 0 :=
    le_antisymm (by nlinarith [mul_self_nonneg a.y, mul_self_nonneg a.z]) (mul_self_nonneg a.x)
  have hy2 : a.y * a.y = 0 :=
    le_antisymm (by nlinarith [mul_self_nonneg a.x, mul_self_nonneg a.z]) (mul_self_nonneg a.y)
  have hz2 : a.z * a.z = 0 :=
    le_antisymm (by nlinarith [mul_self_nonneg a.x, mul_self_nonneg a.y]) (mul_self_nonneg a.z)
  have hx := mul_self_eq_zero.mp hx2
  have hy := mul_self_eq_zero.mp hy2
  have hz := mul_self_eq_zero.mp hz2
  apply vec3_ext <;> simp [v3zero, hx, hy, hz]

section

variable (a00 a01 a02 a03 a10 a11 a12 a13 a20 a21 a22 a23 a30 a31 a32 a33 : ℚ)

@[simp] theorem mat4_e00 : mat4 a00 a01 a02 a03 a10 a11 a12 a13 a20 a21 a22 a23 a30 a31 a32 a33 0 0 = a00 := rfl

@[simp] theorem mat4_e01 : mat4 a00 a01 a02 a03 a10 a11 a12 a13 a20 a21 a22 a23 a30 a31 a32 a33 0 1 = a01 := rfl

@[simp] theorem mat4_e02 : mat4 a00 a01 a02 a03 a10 a11 a12 a13 a20 a21 a22 a23 a30 a31 a32 a33 0 2 = a02 := rfl

@[simp] theorem mat4_e03 : mat4 a00 a01 a02 a03 a10 a11 a12 a13 a20 a21 a22 a23 a30 a31 a32 a33 0 3 = a03 := rfl

@[simp] theorem mat4_e10 : mat4 a00 a01 a02 a03 a10 a11 a12 a13 a20 a21 a22 a23 a30 a31 a32 a33 1 0 = a10 := rfl

@[simp] theorem mat4_e11 : mat4 a00 a01 a02 a03 a10 a11 a12 a13 a20 a21 a22 a23 a30 a31 a32 a33 1 1 = a11 := rfl

@[simp] theorem mat4_e12 : mat4 a00 a01 a02 a03 a10 a11 a12 a13 a20 a21 a22 a23 a30 a31 a32 a33 1 2 = a12 := rfl

@[simp] theorem mat4_e13 : mat4 a00 a01 a02 a03 a10 a11 a12 a13 a20 a21 a22 a23 a30 a31 a32 a33 1 3 = a13 := rfl

@[simp] theorem mat4_e20 : mat4 a00 a01 a02 a03 a10 a11 a12 a13 a20 a21 a22 a23 a30 a31 a32 a33 2 0 = a20 := rfl

@[simp] theorem mat4_e21 : mat4 a00 a01 a02 a03 a10 a11 a12 a13 a20 a21 a22 a23 a30 a31 a32 a33 2 1 = a21 := rfl

@[simp] theorem mat4_e22 : mat4 a00 a01 a02 a03 a10 a11 a12 a13 a20 a21 a22 a23 a30 a31 a32 a33 2 2 = a22 := rfl

@[simp] theorem mat4_e23 : mat4 a00 a01 a02 a03 a10 a11 a12 a13 a20 a21 a22 a23 a30 a31 a32 a33 2 3 = a23 := rfl

@[simp] theorem mat4_e30 : mat4 a00 a01 a02 a03 a10 a11 a12 a13 a20 a21 a22 a23 a30 a31 a32 a33 3 0 = a30 := rfl

@[simp] theorem mat4_e31 : mat4 a00 a01 a02 a03 a10 a11 a12 a13 a20 a21 a22 a23 a30 a31 a32 a33 3 1 = a31 := rfl

@[simp] theorem mat4_e32 : mat4 a00 a01 a02 a03 a10 a11 a12 a13 a20 a21 a22 a23 a30 a31 a32 a33 3 2 = a32 := rfl

@[simp] theorem mat4_e33 : mat4 a00 a01 a02 a03 a10 a11 a12 a13 a20 a21 a22 a23 a30 a31 a32 a33 3 3 = a33 := rfl

end

theorem affineCol_id : AffineCol idMat4 := by
  refine ⟨?_, ?_, ?_, ?_⟩ <;> simp [idMat4]

theorem affineCol_rotate_x (M : Mat4) (h : AffineCol M) (c s : ℚ) :
    AffineCol (rotate_x M c s) := by
  obtain ⟨h0, h1, h2, h3⟩ := h
  refine ⟨?_, ?_, ?_, ?_⟩ <;> simp [rotate_x, matMul, h0, h1, h2, h3]

theorem affineCol_translateM (M : Mat4) (h : AffineCol M) (t : Vec3) :
    AffineCol (translateM M t) := by
  obtain ⟨h0, h1, h2, h3⟩ := h
  refine ⟨?_, ?_, ?_, ?_⟩ <;> simp [translateM, matMul, h0, h1, h2, h3]

theorem applyTransform_matMul (M N : Mat4) (h : AffineCol M) (v : Vec3) :
    applyTransform (matMul M N) v = applyTransform N (applyTransform M v) := by
  obtain ⟨h0, h1, h2, h3⟩ := h
  apply vec3_ext <;> simp [applyTransform, matMul, h0, h1, h2, h3] <;> ring

theorem applyTransform_id (v : Vec3) : applyTransform idMat4 v = v := by
  apply vec3_ext <;> simp [applyTransform, idMat4]

theorem applyTransform_rotate_x (M : Mat4) (h : AffineCol M) (c s : ℚ) (v : Vec3) :
    applyTransform (rotate_x M c s) v =
      ⟨(applyTransform M v).x,
       (applyTransform M v).y * c + (applyTransform M v).z * s,
       -((applyTransform M v).y * s) + (applyTransform M v).z * c⟩ := by
  rw [rotate_x, applyTransform_matMul M _ h]
  apply vec3_ext <;> simp [applyTransform] <;> ring

theorem applyTransform_translateM (M : Mat4) (h : AffineCol M) (t : Vec3) (v : Vec3) :
    applyTransform (translateM M t) v = vadd (applyTransform M v) t := by
  rw [translateM, applyTransform_matMul M _ h]
  apply vec3_ext <;> simp [applyTransform, vadd] <;> ring

section

variable (b00 b01 b02 b10 b11 b12 b20 b21 b22 : ℚ)

@[simp] theorem mat3_e00 : mat3 b00 b01 b02 b10 b11 b12 b20 b21 b22 0 0 = b00 := rfl

@[simp] theorem mat3_e01 : mat3 b00 b01 b02 b10 b11 b12 b20 b21 b22 0 1 = b01 := rfl

@[simp] theorem mat3_e02 : mat3 b00 b01 b02 b10 b11 b12 b20 b21 b22 0 2 = b02 := rfl

@[simp] theorem mat3_e10 : mat3 b00 b01 b02 b10 b11 b12 b20 b21 b22 1 0 = b10 := rfl

@[simp] theorem mat3_e11 : mat3 b00 b01 b02 b10 b11 b12 b20 b21 b22 1 1 = b11 := rfl

@[simp] theorem mat3_e12 : mat3 b00 b01 b02 b10 b11 b12 b20 b21 b22 1 2 = b12 := rfl

@[simp] theorem mat3_e20 : mat3 b00 b01 b02 b10 b11 b12 b20 b21 b22 2 0 = b20 := rfl

@[simp] theorem mat3_e21 : mat3 b00 b01 b02 b10 b11 b12 b20 b21 b22 2 1 = b21 := rfl

@[simp] theorem mat3_e22 : mat3 b00 b01 b02 b10 b11 b12 b20 b21 b22 2 2 = b22 := rfl

end

theorem registerLoop_affine (sA sS : O3dMesh → O3dMesh → O3dMesh) (X : O3dMesh)
    (ys : List O3dMesh) :
    registerLoop sA sS X "affine" ys = Except.ok (ys.map (sA X)) := by
  induction ys with
  | nil => rfl
  | cons y ys ih => simp [registerLoop, ih, Except.map]

theorem registerLoop_soft (sA sS : O3dMesh → O3dMesh → O3dMesh) (X : O3dMesh)
    (ys : List O3dMesh) :
    registerLoop sA sS X "soft" ys = Except.ok (ys.map (sS X)) := by
  induction ys with
  | nil => rfl
  | cons y ys ih => simp [registerLoop, ih, Except.map]

theorem registerLoop_unknown (sA sS : O3dMesh → O3dMesh → O3dMesh) (X Y : O3dMesh)
    (ys : List O3dMesh) (method : String) (h1 : method ≠ "affine") (h2 : method ≠ "soft") :
    registerLoop sA sS X method (Y :: ys) = Except.error (invalid_method_message method) := by
  simp [registerLoop, h1, h2]

/-- C7 (amended): with at least two point sets, `register` succeeds (returning
the fixed first mesh followed by the per-mesh registration results) exactly
for the method strings "affine" and "soft"; every other method string —
including "rigid", whose solver import is commented out in the source —
raises `NameError`. -/
theorem register_dispatch (solveAffine solveSoft : O3dMesh → O3dMesh → O3dMesh)
    (X Y : O3dMesh) (rest : List O3dMesh) (method : String) :
    register solveAffine solveSoft (X :: Y :: rest) method =
      (if method = "affine" then RegisterResult.many (X :: (Y :: rest).map (solveAffine X))
       else if method = "soft" then RegisterResult.many (X :: (Y :: rest).map (solveSoft X))
       else RegisterResult.error (invalid_method_message method)) := by
  by_cases h1 : method = "affine"
  · subst h1
    simp [register, registerLoop_affine]
  · by_cases h2 : method = "soft"
    · subst h2
      simp [register, registerLoop_soft, h1]
    · simp [register, registerLoop_unknown solveAffine solveSoft X Y rest method h1 h2, h1, h2]

/-- C7 (counterexample): with two point sets, method "rigid" does not
succeed — `register` raises the unsupported-method `NameError`, refuting
the claim that "rigid" is an accepted method. -/
theorem register_rigid_counterexample :
    register (fun _ y => y) (fun _ y => y) [O3dMesh.mk [] [], O3dMesh.mk [] []] "rigid" =
      RegisterResult.error "rigid is not a valid registration type." ∧
    isError (register (fun _ y => y) (fun _ y => y)
      [O3dMesh.mk [] [], O3dMesh.mk [] []] "rigid") = true := by
  decide

/-- C8 (amended): for every method string and any solver functions, calling
`register` with an empty measurement list returns Python `None` (after a
printed message) — it raises no error and produces no partial result list. -/
theorem register_empty_returns_none (solveAffine solveSoft : O3dMesh → O3dMesh → O3dMesh)
    (method : String) :
    register solveAffine solveSoft [] method = RegisterResult.noneResult := rfl

/-- C8 (counterexample): on an empty input `register` returns the `None`
sentinel and not an error, refuting the claim that an empty-input error is
raised. -/
theorem register_empty_counterexample :
    register (fun _ y => y) (fun _ y => y) [] "affine" = RegisterResult.noneResult ∧
    isError (register (fun _ y => y) (fun _ y => y) [] "affine") = false := by
  decide

/-- C10: for every method string (validated or not) and any solver
functions, `register` on a singleton list returns that mesh itself,
unwrapped (constructor `single`, not `many [m]`), with no registration
performed and no error raised. -/
theorem register_singleton_unwrapped (solveAffine solveSoft : O3dMesh → O3dMesh → O3dMesh)
    (m : O3dMesh) (method : String) :
    register solveAffine solveSoft [m] method = RegisterResult.single m := rfl

/-- C3 (amended): the back-placement matrix is composed exactly in the
source's fixed order — rest-pose orientation (−90° about X, cosine 0 and
sine −1), translation to the pivot, the recline rotation (cosine `c`,
sine `s` of `(reclineAngle − 90)` degrees), translation back, the
pointer-offset translation along the depth axis, and the base-to-back gap
translation along the vertical axis.  The recline rotation vanishes at
`reclineAngle = 90` (not 0): for `reclineAngle = 90`, i.e. `c = 1` and
`s = 0`, every vertex lands at exactly `pointerOffset` along the depth
axis plus `baseToBackGap` along the vertical axis relative to its
rest-pose (−90° about X) position. -/
theorem back_placement_composition_and_offset (c s pointer_position : ℚ) (v : Vec3) :
    back_model_matrix c s pointer_position =
      translateM (translateM (translateM (rotate_x (translateM (rotate_x idMat4 0 (-1))
          ⟨0, -depth_from_measured_pin_to_rotation_axis,
           -height_from_measured_pin_to_rotation_axis⟩) c s)
          ⟨0, depth_from_measured_pin_to_rotation_axis,
           height_from_measured_pin_to_rotation_axis⟩)
          ⟨0, pointer_position, 0⟩)
        ⟨0, 0, height_from_base_to_back⟩ ∧
    applyTransform (back_model_matrix 1 0 pointer_position) v =
      vadd (applyTransform (rotate_x idMat4 0 (-1)) v)
        ⟨0, pointer_position, height_from_base_to_back⟩ := by
  constructor
  · rfl
  · have A1 := affineCol_rotate_x idMat4 affineCol_id 0 (-1)
    have A2 := affineCol_translateM _ A1
      ⟨0, -depth_from_measured_pin_to_rotation_axis,
       -height_from_measured_pin_to_rotation_axis⟩
    have A3 := affineCol_rotate_x _ A2 1 0
    have A4 := affineCol_translateM _ A3
      ⟨0, depth_from_measured_pin_to_rotation_axis,
       height_from_measured_pin_to_rotation_axis⟩
    have A5 := affineCol_translateM _ A4 ⟨0, pointer_position, 0⟩
    show applyTransform (translateM _ _) v = _
    rw [applyTransform_translateM _ A5, applyTransform_translateM _ A4,
      applyTransform_translateM _ A3, applyTransform_rotate_x _ A2,
      applyTransform_translateM _ A1]
    apply vec3_ext <;> simp [vadd] <;> ring

/-- C3 (counterexample): at `reclineAngle = 0` (cosine 0, sine −1 for the
`angle − 90` rotation) and `pointerOffset = 0`, the origin vertex is
mapped to depth coordinate `47/200 = 0.235`, a y-offset that differs from
`pointerOffset + baseToBackGap = 0.02`, refuting the claimed offset at
recline angle 0. -/
theorem back_placement_offset_counterexample :
    applyTransform (back_model_matrix 0 (-1) 0) ⟨0, 0, 0⟩ = ⟨0, 47/200, -7/40⟩ ∧
    ¬ ((47 : ℚ)/200 - 0 = 0 + height_from_base_to_back) := by
  constructor
  · have A1 := affineCol_rotate_x idMat4 affineCol_id 0 (-1)
    have A2 := affineCol_translateM _ A1
      ⟨0, -depth_from_measured_pin_to_rotation_axis,
       -height_from_measured_pin_to_rotation_axis⟩
    have A3 := affineCol_rotate_x _ A2 0 (-1)
    have A4 := affineCol_translateM _ A3
      ⟨0, depth_from_measured_pin_to_rotation_axis,
       height_from_measured_pin_to_rotation_axis⟩
    have A5 := affineCol_translateM _ A4 ⟨0, 0, 0⟩
    show applyTransform (translateM _ _) _ = _
    rw [applyTransform_translateM _ A5, applyTransform_translateM _ A4,
      applyTransform_translateM _ A3, applyTransform_rotate_x _ A2,
      applyTransform_translateM _ A1, applyTransform_rotate_x _ affineCol_id,
      applyTransform_id]
    apply vec3_ext <;>
      norm_num [vadd, depth_from_measured_pin_to_rotation_axis,
        height_from_measured_pin_to_rotation_axis, height_from_base_to_back]
  · norm_num [height_from_base_to_back]

/-- C5 (amended): for the height field `[[0,0],[0,1]]` with unit
resolutions and the identity transform, the builder produces the four
vertices `(0,1,0), (1,1,0), (0,0,0), (1,0,-1)` in flat row order — the
depth sample of matrix row 1 lands at grid `y = 0` because the builder
reverses the row ordering, so the displaced vertex is `(1,0,-1)`, not
`(1,1,-1)` — two triangles, and both computed normals have nonzero
magnitude. -/
theorem unit_grid_vertices_eval :
    create_vertices 1 1 [[0, 0], [0, 1]] idMat4 =
      [⟨0, 1, 0⟩, ⟨1, 1, 0⟩, ⟨0, 0, 0⟩, ⟨1, 0, -1⟩] := by
  have h4 : List.range (nrows [[0, 0], [0, 1]] * ncols [[0, 0], [0, 1]]) = [0, 1, 2, 3] := rfl
  unfold create_vertices
  rw [h4]
  norm_num [applyTransform, idMat4, mat4, entryAt, Vec3.mk.injEq, nrows, ncols]

theorem unit_grid_scenario :
    create_vertices 1 1 [[0, 0], [0, 1]] idMat4 =
      [⟨0, 1, 0⟩, ⟨1, 1, 0⟩, ⟨0, 0, 0⟩, ⟨1, 0, -1⟩] ∧
    create_triangles [[0, 0], [0, 1]] = some [(0, 3, 1), (3, 0, 2)] ∧
    create_normals (create_vertices 1 1 [[0, 0], [0, 1]] idMat4) [(0, 3, 1), (3, 0, 2)] =
      [⟨0, 1, -1⟩, ⟨-1, 0, -1⟩] ∧
    sqnorm ⟨0, 1, -1⟩ ≠ 0 ∧ sqnorm ⟨-1, 0, -1⟩ ≠ 0 := by
  refine ⟨unit_grid_vertices_eval, by decide, ?_, by norm_num [sqnorm], by norm_num [sqnorm]⟩
  rw [unit_grid_vertices_eval]
  norm_num [create_normals, cross, vsub, v3zero, Vec3.mk.injEq]

/-- C5 (counterexample): the claimed vertex position `(1,1,-1)` is not
among the vertices the builder produces for `[[0,0],[0,1]]` with unit
resolutions and the identity transform (the produced sloped vertex is
`(1,0,-1)`), so the claimed position list is wrong in any order. -/
theorem unit_grid_counterexample :
    (⟨1, 1, -1⟩ : Vec3) ∉ create_vertices 1 1 [[0, 0], [0, 1]] idMat4 ∧
    (⟨1, 0, -1⟩ : Vec3) ∈ create_vertices 1 1 [[0, 0], [0, 1]] idMat4 := by
  rw [unit_grid_vertices_eval]
  norm_num [Vec3.mk.injEq]

/-- C6 (amended): for every source mesh with at least one vertex and every
estimated linear map `B` and translation `t`, the affine-registration
result keeps the source's triangle connectivity, and its vertex positions
are `B (y - center) + center + t` for each source vertex `y`, where
`center` is the source's vertex centroid — open3d's `rotate` pivots about
the mesh centre by default, so the result equals `B y + t` only when the
centroid is fixed by `B`. -/
theorem affine_result_recenters (target source : O3dMesh) (B : Mat3) (t : Vec3)
    (hne : source.vertices ≠ []) :
    (affine_registration target source B t).triangles = source.triangles ∧
    (affine_registration target source B t).vertices =
      source.vertices.map fun y =>
        vadd (vadd (matVec3 B (vsub y (get_center source))) (get_center source)) t := by
  constructor
  · rfl
  · simp [affine_registration, o3d_translate, o3d_rotate, Function.comp]

/-- C6 (witness): the amended theorem applied to a concrete one-vertex
source mesh. -/
theorem affine_result_recenters_witness :
    ((O3dMesh.mk [⟨1, 0, 0⟩] []).vertices ≠ []) ∧
    ((affine_registration (O3dMesh.mk [] []) (O3dMesh.mk [⟨1, 0, 0⟩] [])
        (mat3 0 (-1) 0 1 0 0 0 0 1) ⟨0, 0, 0⟩).triangles = (O3dMesh.mk [⟨1, 0, 0⟩] []).triangles ∧
     (affine_registration (O3dMesh.mk [] []) (O3dMesh.mk [⟨1, 0, 0⟩] [])
        (mat3 0 (-1) 0 1 0 0 0 0 1) ⟨0, 0, 0⟩).vertices =
       (O3dMesh.mk [⟨1, 0, 0⟩] []).vertices.map fun y =>
         vadd (vadd (matVec3 (mat3 0 (-1) 0 1 0 0 0 0 1)
           (vsub y (get_center (O3dMesh.mk [⟨1, 0, 0⟩] []))))
           (get_center (O3dMesh.mk [⟨1, 0, 0⟩] []))) ⟨0, 0, 0⟩) :=
  ⟨by decide, affine_result_recenters (O3dMesh.mk [] []) (O3dMesh.mk [⟨1, 0, 0⟩] [])
    (mat3 0 (-1) 0 1 0 0 0 0 1) ⟨0, 0, 0⟩ (by decide)⟩

/-- C6 (counterexample): a one-vertex source at `(1,0,0)` with a 90-degree
rotation about the vertical axis and zero translation: the source's
`rotate`-about-centre pipeline returns the vertex unchanged at `(1,0,0)`,
while `R y + t` is `(0,1,0)` — the returned positions are not `R Y + t`. -/
theorem affine_registration_center_counterexample :
    (affine_registration (O3dMesh.mk [] []) (O3dMesh.mk [⟨1, 0, 0⟩] [])
        (mat3 0 (-1) 0 1 0 0 0 0 1) ⟨0, 0, 0⟩).vertices = [⟨1, 0, 0⟩] ∧
    ([⟨1, 0, 0⟩] : List Vec3) ≠
      [vadd (matVec3 (mat3 0 (-1) 0 1 0 0 0 0 1) ⟨1, 0, 0⟩) ⟨0, 0, 0⟩] := by
  constructor
  · show (o3d_translate (o3d_rotate _ _) _).vertices = _
    norm_num [o3d_translate, o3d_rotate, get_center, vec3Sum, vadd, vsub, vsmul,
      matVec3, v3zero, Vec3.mk.injEq]
  · norm_num [vadd, matVec3, Vec3.mk.injEq]

/-- C1 (amended): the trimming step keeps a vertex if and only if its
depth-axis (`y`) coordinate is strictly below the cutoff depth — the
source's mask `~np.greater_equal(V[:,1], cutoff_depth)` selects the rows
it keeps, so vertices at or beyond the cutoff are the ones removed. -/
theorem trim_keeps_below_cutoff (tanTheta pointer_position : ℚ) (V : List Vec3) (T : List Tri)
    (keptV : List Vec3) (newT : List Tri)
    (h : remove_unused_pins tanTheta pointer_position V T = some (keptV, newT)) (v : Vec3) :
    v ∈ keptV ↔ v ∈ V ∧ v.y < cutoff_depth tanTheta pointer_position := by
  have hV : keptV = keptVertices tanTheta pointer_position V := by
    unfold remove_unused_pins at h
    split at h
    · exact absurd h (by simp)
    · simp only [Option.some.injEq, Prod.mk.injEq] at h
      exact h.1.symm
  subst hV
  simp [keptVertices, List.mem_filter]

theorem trim_tiny_eval :
    remove_unused_pins 0 (1/20) [⟨0, 1, 0⟩, ⟨0, 0, 0⟩] [(1, 1, 1)] =
      some ([⟨0, 0, 0⟩], [(0, 0, 0)]) := by
  have h2 : removedIndices 0 (1/20) [⟨0, 1, 0⟩, ⟨0, 0, 0⟩] = [0] := by
    have hr : List.range (([⟨0, 1, 0⟩, ⟨0, 0, 0⟩] : List Vec3).length) = [0, 1] := rfl
    unfold removedIndices
    rw [hr]
    norm_num [List.filter_cons, cutoff_depth, height_from_measured_pin_to_rotation_axis, v3zero]
  have h3 : keptTriangles 0 (1/20) [⟨0, 1, 0⟩, ⟨0, 0, 0⟩] [(1, 1, 1)] = [(1, 1, 1)] := by
    unfold keptTriangles
    rw [h2]
    norm_num [List.filter_cons]
  have h1 : keptVertices 0 (1/20) [⟨0, 1, 0⟩, ⟨0, 0, 0⟩] = [⟨0, 0, 0⟩] := by
    norm_num [keptVertices, List.filter_cons, cutoff_depth,
      height_from_measured_pin_to_rotation_axis]
  unfold remove_unused_pins
  rw [h1, h3]
  rfl

/-- C1 (witness): the amended keep-rule instantiated on a concrete trim
with one surviving vertex and one surviving triangle. -/
theorem trim_keeps_below_cutoff_witness :
    remove_unused_pins 0 (1/20) [⟨0, 1, 0⟩, ⟨0, 0, 0⟩] [(1, 1, 1)] =
      some ([⟨0, 0, 0⟩], [(0, 0, 0)]) ∧
    ((⟨0, 0, 0⟩ : Vec3) ∈ [(⟨0, 0, 0⟩ : Vec3)] ↔
      (⟨0, 0, 0⟩ : Vec3) ∈ ([⟨0, 1, 0⟩, ⟨0, 0, 0⟩] : List Vec3) ∧
      (⟨0, 0, 0⟩ : Vec3).y < cutoff_depth 0 (1/20)) :=
  ⟨trim_tiny_eval,
   trim_keeps_below_cutoff 0 (1/20) [⟨0, 1, 0⟩, ⟨0, 0, 0⟩] [(1, 1, 1)]
     [⟨0, 0, 0⟩] [(0, 0, 0)] trim_tiny_eval ⟨0, 0, 0⟩⟩

theorem grid32_vertices_eval :
    create_vertices x_resolution y_resolution [[0, 0], [0, 0], [0, 0]] base_model_matrix =
      [⟨0, 2 * y_resolution, 0⟩, ⟨x_resolution, 2 * y_resolution, 0⟩,
       ⟨0, y_resolution, 0⟩, ⟨x_resolution, y_resolution, 0⟩,
       ⟨0, 0, 0⟩, ⟨x_resolution, 0, 0⟩] := by
  have h6 : List.range (nrows [[0, 0], [0, 0], [0, 0]] * ncols [[0, 0], [0, 0], [0, 0]]) =
      [0, 1, 2, 3, 4, 5] := rfl
  unfold create_vertices
  rw [h6]
  norm_num [applyTransform, base_model_matrix, idMat4, mat4, entryAt, Vec3.mk.injEq,
    nrows, ncols, x_resolution, y_resolution]

/-- C1 (counterexample): on the 3x2 zero grid with recline tangent 0 and
pointer position `1/20` metres, the vertex at depth `2 * y_resolution`
lies at or beyond the cutoff (so the claim says it is kept), yet the
trimming step removes it: the surviving vertex list contains only the
rows strictly below the cutoff. -/
theorem trim_counterexample :
    cutoff_depth 0 (1/20) ≤ (⟨0, 2 * y_resolution, 0⟩ : Vec3).y ∧
    (⟨0, 2 * y_resolution, 0⟩ : Vec3) ∈
      create_vertices x_resolution y_resolution [[0, 0], [0, 0], [0, 0]] base_model_matrix ∧
    create_triangles [[0, 0], [0, 0], [0, 0]] =
      some [(0, 3, 1), (3, 0, 2), (2, 5, 3), (5, 2, 4)] ∧
    remove_unused_pins 0 (1/20)
      (create_vertices x_resolution y_resolution [[0, 0], [0, 0], [0, 0]] base_model_matrix)
      [(0, 3, 1), (3, 0, 2), (2, 5, 3), (5, 2, 4)] =
      some ([⟨0, y_resolution, 0⟩, ⟨x_resolution, y_resolution, 0⟩,
             ⟨0, 0, 0⟩, ⟨x_resolution, 0, 0⟩], [(0, 3, 1), (3, 0, 2)]) ∧
    (⟨0, 2 * y_resolution, 0⟩ : Vec3) ∉
      [⟨0, y_resolution, 0⟩, ⟨x_resolution, y_resolution, 0⟩,
       ⟨0, 0, 0⟩, ⟨x_resolution, 0, 0⟩] := by
  refine ⟨?_, ?_, by decide, ?_, ?_⟩
  · norm_num [cutoff_depth, height_from_measured_pin_to_rotation_axis, y_resolution]
  · rw [grid32_vertices_eval]
    norm_num
  · rw [grid32_vertices_eval]
    have h2 : removedIndices 0 (1/20)
        [⟨0, 2 * y_resolution, 0⟩, ⟨x_resolution, 2 * y_resolution, 0⟩,
         ⟨0, y_resolution, 0⟩, ⟨x_resolution, y_resolution, 0⟩,
         ⟨0, 0, 0⟩, ⟨x_resolution, 0, 0⟩] = [0, 1] := by
      have hr : List.range (([⟨0, 2 * y_resolution, 0⟩, ⟨x_resolution, 2 * y_resolution, 0⟩,
          ⟨0, y_resolution, 0⟩, ⟨x_resolution, y_resolution, 0⟩,
          ⟨0, 0, 0⟩, ⟨x_resolution, 0, 0⟩] : List Vec3).length) = [0, 1, 2, 3, 4, 5] := rfl
      unfold removedIndices
      rw [hr]
      norm_num [List.filter_cons, cutoff_depth,
        height_from_measured_pin_to_rotation_axis, v3zero, y_resolution]
    have h3 : keptTriangles 0 (1/20)
        [⟨0, 2 * y_resolution, 0⟩, ⟨x_resolution, 2 * y_resolution, 0⟩,
         ⟨0, y_resolution, 0⟩, ⟨x_resolution, y_resolution, 0⟩,
         ⟨0, 0, 0⟩, ⟨x_resolution, 0, 0⟩]
        [(0, 3, 1), (3, 0, 2), (2, 5, 3), (5, 2, 4)] = [(2, 5, 3), (5, 2, 4)] := by
      unfold keptTriangles
      rw [h2]
      norm_num [List.filter_cons]
    have h1 : keptVertices 0 (1/20)
        [⟨0, 2 * y_resolution, 0⟩, ⟨x_resolution, 2 * y_resolution, 0⟩,
         ⟨0, y_resolution, 0⟩, ⟨x_resolution, y_resolution, 0⟩,
         ⟨0, 0, 0⟩, ⟨x_resolution, 0, 0⟩] =
        [⟨0, y_resolution, 0⟩, ⟨x_resolution, y_resolution, 0⟩,
         ⟨0, 0, 0⟩, ⟨x_resolution, 0, 0⟩] := by
      norm_num [keptVertices, List.filter_cons, cutoff_depth,
        height_from_measured_pin_to_rotation_axis, y_resolution]
    unfold remove_unused_pins
    rw [h1, h3]
    rfl
  · norm_num [Vec3.mk.injEq, y_resolution, x_resolution]

theorem vsub_eq_v3zero (a b : Vec3) (h : vsub a b = v3zero) : a = b := by
  simp only [vsub, v3zero, Vec3.mk.injEq] at h
  obtain ⟨hx, hy, hz⟩ := h
  apply vec3_ext
  · exact sub_eq_zero.mp hx
  · exact sub_eq_zero.mp hy
  · exact sub_eq_zero.mp hz

theorem argminIdx_spec (l : List ℚ) (h : l ≠ []) :
    argminIdx l < l.length ∧ ∀ j, j < l.length → l.getD (argminIdx l) 0 ≤ l.getD j 0 := by
  induction l with
  | nil => exact absurd rfl h
  | cons x xs ih =>
    cases xs with
    | nil =>
      refine ⟨by simp [argminIdx], ?_⟩
      intro j hj
      have hj0 : j = 0 := by simpa using Nat.lt_one_iff.mp (by simpa using hj)
      subst hj0
      simp [argminIdx]
    | cons y ys =>
      obtain ⟨ih1, ih2⟩ := ih (by simp)
      by_cases hlt : (y :: ys).getD (argminIdx (y :: ys)) 0 < x
      · have he : argminIdx (x :: y :: ys) = argminIdx (y :: ys) + 1 := by
          simp only [argminIdx]
          rw [if_pos hlt]
        refine ⟨by rw [he]; simpa using Nat.succ_lt_succ ih1, ?_⟩
        intro j hj
        rw [he, List.getD_cons_succ]
        cases j with
        | zero => simpa using le_of_lt hlt
        | succ j => rw [List.getD_cons_succ]; exact ih2 j (by simpa using hj)
      · have he : argminIdx (x :: y :: ys) = 0 := by
          simp only [argminIdx]
          rw [if_neg hlt]
        refine ⟨by rw [he]; simp, ?_⟩
        intro j hj
        rw [he, List.getD_cons_zero]
        cases j with
        | zero => simp
        | succ j =>
          rw [List.getD_cons_succ]
          exact le_trans (not_lt.mp hlt) (ih2 j (by simpa using hj))

theorem map_const_on_mem {α β : Type} (l : List α) (f : α → β) (c : β)
    (h : ∀ a ∈ l, f a = c) : l.map f = List.replicate l.length c := by
  induction l with
  | nil => rfl
  | cons a l ih =>
    simp only [List.map_cons, List.length_cons, List.replicate_succ]
    rw [h a (by simp), ih (fun b hb => h b (by simp [hb]))]

theorem nearest_self (V : List Vec3) :
    get_nearest_displacement_vectors V V = List.replicate V.length v3zero := by
  unfold get_nearest_displacement_vectors
  apply map_const_on_mem
  intro v hv
  show vsub (V.getD (argminIdx (V.map fun yv => sqnorm (vsub v yv))) v3zero) v = v3zero
  obtain ⟨k, hk, hkv⟩ := List.mem_iff_getElem.mp hv
  have hne : V ≠ [] := by
    intro hnil
    rw [hnil] at hv
    simp at hv
  have hdne : (V.map fun yv => sqnorm (vsub v yv)) ≠ [] := by simpa using hne
  obtain ⟨hlt, hmin⟩ := argminIdx_spec _ hdne
  have hlen : (V.map fun yv => sqnorm (vsub v yv)).length = V.length := by simp
  have hgetK : V.getD k v3zero = v := by
    rw [List.getD_eq_getElem V v3zero hk]
    exact hkv
  have hvalK : (V.map fun yv => sqnorm (vsub v yv)).getD k 0 = 0 := by
    rw [List.getD_eq_getElem _ _ (by simpa using hk), List.getElem_map]
    rw [show V[k] = v from hkv]
    rw [vsub_self_eq]
    simp [sqnorm, v3zero]
  have hvalI : (V.map fun yv => sqnorm (vsub v yv)).getD
      (argminIdx (V.map fun yv => sqnorm (vsub v yv))) 0 =
      sqnorm (vsub v (V.getD (argminIdx (V.map fun yv => sqnorm (vsub v yv))) v3zero)) := by
    rw [List.getD_eq_getElem _ _ hlt, List.getElem_map,
      List.getD_eq_getElem V v3zero (by rw [← hlen]; exact hlt)]
  have h0 : sqnorm (vsub v (V.getD (argminIdx (V.map fun yv => sqnorm (vsub v yv))) v3zero)) = 0 := by
    refine le_antisymm ?_ (sqnorm_nonneg _)
    rw [← hvalI]
    calc (V.map fun yv => sqnorm (vsub v yv)).getD (argminIdx _) 0
        ≤ (V.map fun yv => sqnorm (vsub v yv)).getD k 0 := hmin k (by simpa using hk)
      _ = 0 := hvalK
  have hEq : V.getD (argminIdx (V.map fun yv => sqnorm (vsub v yv))) v3zero = v :=
    (vsub_eq_v3zero _ _ (sqnorm_eq_zero_imp _ h0)).symm
  rw [hEq, vsub_self_eq]

theorem getD_replicate_self {α : Type} (n i : ℕ) (a : α) :
    (List.replicate n a).getD i a = a := by
  induction n generalizing i with
  | zero => simp
  | succ n ih =>
    cases i with
    | zero => simp [List.replicate_succ]
    | succ i => simpa [List.replicate_succ] using ih i

theorem foldl_vadd_getD_zero (ls : List (List Vec3)) (i : ℕ)
    (h : ∀ l ∈ ls, l.getD i v3zero = v3zero) :
    ls.foldl (fun acc l => vadd acc (l.getD i v3zero)) v3zero = v3zero := by
  induction ls with
  | nil => rfl
  | cons l ls ih =>
    simp only [List.foldl_cons]
    rw [h l (by simp), vadd_v3zero]
    exact ih (fun l2 hl2 => h l2 (by simp [hl2]))

theorem mean_axis0_replicate_zero (k n : ℕ) (hk : k ≠ 0) :
    mean_axis0 (List.replicate k (List.replicate n v3zero)) = List.replicate n v3zero := by
  unfold mean_axis0
  have hhead : (List.replicate k (List.replicate n v3zero)).headD [] =
      List.replicate n v3zero := by
    cases k with
    | zero => exact absurd rfl hk
    | succ k => simp [List.replicate_succ]
  rw [hhead]
  simp only [List.length_replicate]
  have hfold : ∀ i : ℕ, (List.replicate k (List.replicate n v3zero)).foldl
      (fun acc l => vadd acc (l.getD i v3zero)) v3zero = v3zero := fun i =>
    foldl_vadd_getD_zero _ i (fun l hl => by
      rw [List.eq_of_mem_replicate hl]
      exact getD_replicate_self n i v3zero)
  have hfun : (fun i => vsmul (1 / (k : ℚ))
      ((List.replicate k (List.replicate n v3zero)).foldl
        (fun acc l => vadd acc (l.getD i v3zero)) v3zero)) = fun _ : ℕ => v3zero := by
    funext i
    rw [hfold i]
    simp
  rw [hfun, map_const_on_mem (List.range n) (fun _ => v3zero) v3zero (fun a _ => rfl)]
  simp

theorem zipWith_vadd_replicate_zero (V : List Vec3) :
    List.zipWith vadd V (List.replicate V.length v3zero) = V := by
  induction V with
  | nil => rfl
  | cons v vs ih => simp [List.replicate_succ, ih]

/-- C9: averaging a population whose first element is the reference mesh
and whose remaining meshes all have the reference's vertex positions
yields zero averaged displacement at every vertex, so the mean shape's
vertex positions equal the reference's and its triangle list is the
reference triangle list. -/
theorem average_of_identical_population (m0 : O3dMesh) (rest : List O3dMesh)
    (hne : rest ≠ []) (hsame : ∀ m ∈ rest, m.vertices = m0.vertices) :
    create_normal_measurement (m0 :: rest) = some (m0.vertices, m0.triangles) ∧
    mean_axis0 ((rest.map O3dMesh.vertices).map
      (fun Mv => get_nearest_displacement_vectors m0.vertices Mv)) =
      List.replicate m0.vertices.length v3zero := by
  have hdvs : (rest.map O3dMesh.vertices).map
      (fun Mv => get_nearest_displacement_vectors m0.vertices Mv) =
      List.replicate rest.length (List.replicate m0.vertices.length v3zero) := by
    rw [List.map_map]
    have hmem : ∀ m ∈ rest,
        ((fun Mv => get_nearest_displacement_vectors m0.vertices Mv) ∘ O3dMesh.vertices) m =
          List.replicate m0.vertices.length v3zero := by
      intro m hm
      show get_nearest_displacement_vectors m0.vertices m.vertices = _
      rw [hsame m hm, nearest_self]
    exact map_const_on_mem rest _ _ hmem
  have havg : mean_axis0 ((rest.map O3dMesh.vertices).map
      (fun Mv => get_nearest_displacement_vectors m0.vertices Mv)) =
      List.replicate m0.vertices.length v3zero := by
    rw [hdvs]
    exact mean_axis0_replicate_zero rest.length m0.vertices.length (by simpa using hne)
  refine ⟨?_, havg⟩
  obtain ⟨r, rs, rfl⟩ := List.exists_cons_of_ne_nil hne
  show create_normal_measurement (m0 :: r :: rs) = _
  simp only [create_normal_measurement]
  rw [havg, zipWith_vadd_replicate_zero]

/-- C9 (witness): the averaging theorem applied to a concrete reference
mesh and one identical-position copy. -/
theorem average_of_identical_population_witness :
    create_normal_measurement [O3dMesh.mk [⟨1, 2, 3⟩] [(0, 0, 0)], O3dMesh.mk [⟨1, 2, 3⟩] []] =
      some ((O3dMesh.mk [⟨1, 2, 3⟩] [(0, 0, 0)]).vertices,
            (O3dMesh.mk [⟨1, 2, 3⟩] [(0, 0, 0)]).triangles) ∧
    mean_axis0 (([O3dMesh.mk [⟨1, 2, 3⟩] []].map O3dMesh.vertices).map
      (fun Mv => get_nearest_displacement_vectors
        (O3dMesh.mk [⟨1, 2, 3⟩] [(0, 0, 0)]).vertices Mv)) =
      List.replicate (O3dMesh.mk [⟨1, 2, 3⟩] [(0, 0, 0)]).vertices.length v3zero :=
  average_of_identical_population (O3dMesh.mk [⟨1, 2, 3⟩] [(0, 0, 0)])
    [O3dMesh.mk [⟨1, 2, 3⟩] []] (by simp) (by simp)

theorem pairJoin_length (ps : List (Tri × Tri)) : (pairJoin ps).length = 2 * ps.length := by
  induction ps with
  | nil => rfl
  | cons p ps ih =>
    simp only [pairJoin, List.length_cons, ih]
    omega

theorem mem_pairJoin (t : Tri) (ps : List (Tri × Tri)) :
    t ∈ pairJoin ps ↔ ∃ p ∈ ps, t = p.1 ∨ t = p.2 := by
  induction ps with
  | nil => simp [pairJoin]
  | cons p ps ih =>
    constructor
    · intro h
      simp only [pairJoin] at h
      rcases List.mem_cons.mp h with h1 | h
      · exact ⟨p, by simp, Or.inl h1⟩
      rcases List.mem_cons.mp h with h2 | h
      · exact ⟨p, by simp, Or.inr h2⟩
      · obtain ⟨q, hq, hor⟩ := ih.mp h
        exact ⟨q, by simp [hq], hor⟩
    · rintro ⟨q, hq, hor⟩
      simp only [pairJoin]
      rcases List.mem_cons.mp hq with rfl | hq2
      · rcases hor with rfl | rfl
        · exact List.mem_cons_self _ _
        · exact List.mem_cons_of_mem _ (List.mem_cons_self _ _)
      · exact List.mem_cons_of_mem _ (List.mem_cons_of_mem _ (ih.mpr ⟨q, hq2, hor⟩))

theorem create_triangles_some (M : List (List ℚ)) (T : List Tri)
    (hT : create_triangles M = some T) :
    2 ≤ nrows M ∧ 2 ≤ ncols M ∧
    T = pairJoin ((List.range ((nrows M - 1) * (ncols M - 1))).map
      (cell_triangle_pair (ncols M))) := by
  unfold create_triangles at hT
  split at hT
  · exact absurd hT (by simp)
  · split at hT
    · exact absurd hT (by simp)
    · refine ⟨by omega, by omega, ?_⟩
      simpa using hT.symm

theorem mem_create_triangles (M : List (List ℚ)) (T : List Tri) (t : Tri)
    (hT : create_triangles M = some T) (ht : t ∈ T) :
    ∃ idx, idx < (nrows M - 1) * (ncols M - 1) ∧
      (t = (cell_triangle_pair (ncols M) idx).1 ∨ t = (cell_triangle_pair (ncols M) idx).2) := by
  obtain ⟨hR, hC, hTeq⟩ := create_triangles_some M T hT
  subst hTeq
  rw [mem_pairJoin] at ht
  obtain ⟨p, hp, hor⟩ := ht
  rw [List.mem_map] at hp
  obtain ⟨idx, hidx, rfl⟩ := hp
  exact ⟨idx, by simpa using hidx, hor⟩

theorem cell_triangle_pair_spec (R C idx : ℕ) (hC : 2 ≤ C)
    (h : idx < (R - 1) * (C - 1)) :
    cell_triangle_pair C idx =
      ((C * (idx / (C - 1)) + idx % (C - 1),
        C * (idx / (C - 1) + 1) + (idx % (C - 1) + 1),
        C * (idx / (C - 1)) + (idx % (C - 1) + 1)),
       (C * (idx / (C - 1) + 1) + (idx % (C - 1) + 1),
        C * (idx / (C - 1)) + idx % (C - 1),
        C * (idx / (C - 1) + 1) + idx % (C - 1))) ∧
    idx / (C - 1) + 1 < R ∧ idx % (C - 1) + 1 < C := by
  have h1 : 0 < C - 1 := by omega
  have hdm : (C - 1) * (idx / (C - 1)) + idx % (C - 1) = idx := Nat.div_add_mod idx (C - 1)
  have hmod : idx % (C - 1) < C - 1 := Nat.mod_lt idx h1
  have hqlt : idx / (C - 1) < R - 1 := (Nat.div_lt_iff_lt_mul h1).mpr h
  unfold cell_triangle_pair
  simp only [Prod.mk.injEq]
  generalize hq : idx / (C - 1) = q at hdm hqlt ⊢
  generalize hbg : idx % (C - 1) = b at hdm hmod ⊢
  have hCq : C * q = (C - 1) * q + q := by
    have hC1 : C = C - 1 + 1 := by omega
    calc C * q = (C - 1 + 1) * q := by rw [← hC1]
      _ = (C - 1) * q + q := by ring
  have hCq1 : C * (q + 1) = C * q + C := by ring
  refine ⟨⟨⟨?_, ?_, ?_⟩, ?_, ?_, ?_⟩, ?_, ?_⟩ <;> omega

theorem row_of_flat (C row col : ℕ) (hC : 0 < C) (hcol : col < C) :
    (C * row + col) / C = row := by
  rw [Nat.mul_add_div hC]
  simp [Nat.div_eq_of_lt hcol]

theorem col_of_flat (C row col : ℕ) (hcol : col < C) : (C * row + col) % C = col := by
  rw [Nat.mul_add_mod]
  exact Nat.mod_eq_of_lt hcol

theorem flat_lt (R C row col : ℕ) (hrow : row < R) (hcol : col < C) :
    C * row + col < R * C := by
  have h2 : C * (row + 1) ≤ C * R := Nat.mul_le_mul_left C hrow
  have h3 : C * (row + 1) = C * row + C := by ring
  have h4 : C * R = R * C := Nat.mul_comm C R
  omega

theorem cell_triangle_ok (R C idx : ℕ) (hC : 2 ≤ C) (h : idx < (R - 1) * (C - 1)) (t : Tri)
    (ht : t = (cell_triangle_pair C idx).1 ∨ t = (cell_triangle_pair C idx).2) :
    t.1 < R * C ∧ t.2.1 < R * C ∧ t.2.2 < R * C ∧
    t.1 ≠ t.2.1 ∧ t.1 ≠ t.2.2 ∧ t.2.1 ≠ t.2.2 := by
  obtain ⟨hpair, hq1, hb1⟩ := cell_triangle_pair_spec R C idx hC h
  have hx1 := flat_lt R C (idx / (C - 1)) (idx % (C - 1)) (by omega) (by omega)
  have hx2 := flat_lt R C (idx / (C - 1)) (idx % (C - 1) + 1) (by omega) (by omega)
  have hx3 := flat_lt R C (idx / (C - 1) + 1) (idx % (C - 1) + 1) (by omega) (by omega)
  have hx4 := flat_lt R C (idx / (C - 1) + 1) (idx % (C - 1)) (by omega) (by omega)
  have hCq1 : C * (idx / (C - 1) + 1) = C * (idx / (C - 1)) + C := by ring
  rcases ht with rfl | rfl <;> rw [hpair] <;> dsimp only <;>
    refine ⟨?_, ?_, ?_, ?_, ?_, ?_⟩ <;> omega

theorem natListMin_ne_nil (l : List ℕ) (h : l ≠ []) : natListMin l ≠ none := by
  cases l with
  | nil => exact absurd rfl h
  | cons x xs => cases hxs : natListMin xs <;> simp [natListMin, hxs]

theorem natListMin_mem (l : List ℕ) (m : ℕ) (h : natListMin l = some m) : m ∈ l := by
  induction l generalizing m with
  | nil => simp [natListMin] at h
  | cons x xs ih =>
    simp only [natListMin] at h
    cases hxs : natListMin xs with
    | none =>
      rw [hxs] at h
      simp only [Option.some.injEq] at h
      simp [← h]
    | some m2 =>
      rw [hxs] at h
      simp only [Option.some.injEq] at h
      by_cases hxm : x ≤ m2
      · rw [if_pos hxm] at h
        simp [← h]
      · rw [if_neg hxm] at h
        rw [← h]
        exact List.mem_cons_of_mem x (ih m2 hxs)

theorem natListMin_le (l : List ℕ) (m : ℕ) (h : natListMin l = some m) :
    ∀ x ∈ l, m ≤ x := by
  induction l generalizing m with
  | nil => simp
  | cons a xs ih =>
    simp only [natListMin] at h
    cases hxs : natListMin xs with
    | none =>
      rw [hxs] at h
      simp only [Option.some.injEq] at h
      have hnil : xs = [] := by
        cases xs with
        | nil => rfl
        | cons b bs => exact absurd hxs (natListMin_ne_nil (b :: bs) (by simp))
      subst hnil
      intro x hx
      simp only [List.mem_singleton] at hx
      omega
    | some m2 =>
      rw [hxs] at h
      simp only [Option.some.injEq] at h
      intro x hx
      rcases List.mem_cons.mp hx with h1 | hx2
      · by_cases hxm : a ≤ m2
        · rw [if_pos hxm] at h
          omega
        · rw [if_neg hxm] at h
          omega
      · have h2 := ih m2 hxs x hx2
        by_cases hxm : a ≤ m2
        · rw [if_pos hxm] at h
          omega
        · rw [if_neg hxm] at h
          omega

theorem natListMin_eq_of (l : List ℕ) (m : ℕ) (hm : m ∈ l) (hle : ∀ x ∈ l, m ≤ x) :
    natListMin l = some m := by
  cases hmin : natListMin l with
  | none =>
    refine absurd hmin (natListMin_ne_nil l ?_)
    intro hnil
    subst hnil
    simp at hm
  | some m2 =>
    have h1 : m2 ∈ l := natListMin_mem l m2 hmin
    have h2 : m2 ≤ m := natListMin_le l m2 hmin m hm
    have h3 : m ≤ m2 := hle m2 h1
    rw [Nat.le_antisymm h2 h3]

theorem natListMax_ne_nil (l : List ℕ) (h : l ≠ []) : natListMax l ≠ none := by
  cases l with
  | nil => exact absurd rfl h
  | cons x xs => cases hxs : natListMax xs <;> simp [natListMax, hxs]

theorem natListMax_mem (l : List ℕ) (m : ℕ) (h : natListMax l = some m) : m ∈ l := by
  induction l generalizing m with
  | nil => simp [natListMax] at h
  | cons x xs ih =>
    simp only [natListMax] at h
    cases hxs : natListMax xs with
    | none =>
      rw [hxs] at h
      simp only [Option.some.injEq] at h
      simp [← h]
    | some m2 =>
      rw [hxs] at h
      simp only [Option.some.injEq] at h
      by_cases hxm : x ≤ m2
      · rw [if_pos hxm] at h
        rw [← h]
        exact List.mem_cons_of_mem x (ih m2 hxs)
      · rw [if_neg hxm] at h
        simp [← h]

theorem natListMax_ge (l : List ℕ) (m : ℕ) (h : natListMax l = some m) :
    ∀ x ∈ l, x ≤ m := by
  induction l generalizing m with
  | nil => simp
  | cons a xs ih =>
    simp only [natListMax] at h
    cases hxs : natListMax xs with
    | none =>
      rw [hxs] at h
      simp only [Option.some.injEq] at h
      have hnil : xs = [] := by
        cases xs with
        | nil => rfl
        | cons b bs => exact absurd hxs (natListMax_ne_nil (b :: bs) (by simp))
      subst hnil
      intro x hx
      simp only [List.mem_singleton] at hx
      omega
    | some m2 =>
      rw [hxs] at h
      simp only [Option.some.injEq] at h
      intro x hx
      rcases List.mem_cons.mp hx with h1 | hx2
      · by_cases hxm : a ≤ m2
        · rw [if_pos hxm] at h
          omega
        · rw [if_neg hxm] at h
          omega
      · have h2 := ih m2 hxs x hx2
        by_cases hxm : a ≤ m2
        · rw [if_pos hxm] at h
          omega
        · rw [if_neg hxm] at h
          omega

theorem natListMax_eq_of (l : List ℕ) (m : ℕ) (hm : m ∈ l) (hge : ∀ x ∈ l, x ≤ m) :
    natListMax l = some m := by
  cases hmax : natListMax l with
  | none =>
    refine absurd hmax (natListMax_ne_nil l ?_)
    intro hnil
    subst hnil
    simp at hm
  | some m2 =>
    have h1 : m2 ∈ l := natListMax_mem l m2 hmax
    have h2 : m ≤ m2 := natListMax_ge l m2 hmax m hm
    have h3 : m2 ≤ m := hge m2 h1
    rw [Nat.le_antisymm h3 h2]

theorem mem_allIndices (x : ℕ) (L : List Tri) :
    x ∈ allIndices L ↔ ∃ t ∈ L, x = t.1 ∨ x = t.2.1 ∨ x = t.2.2 := by
  induction L with
  | nil => simp [allIndices]
  | cons t ts ih =>
    constructor
    · intro h
      simp only [allIndices] at h
      rcases List.mem_cons.mp h with h1 | h
      · exact ⟨t, by simp, Or.inl h1⟩
      rcases List.mem_cons.mp h with h2 | h
      · exact ⟨t, by simp, Or.inr (Or.inl h2)⟩
      rcases List.mem_cons.mp h with h3 | h
      · exact ⟨t, by simp, Or.inr (Or.inr h3)⟩
      · obtain ⟨u, hu, hor⟩ := ih.mp h
        exact ⟨u, by simp [hu], hor⟩
    · rintro ⟨u, hu, hor⟩
      simp only [allIndices]
      rcases List.mem_cons.mp hu with rfl | hu2
      · rcases hor with rfl | rfl | rfl
        · exact List.mem_cons_self _ _
        · exact List.mem_cons_of_mem _ (List.mem_cons_self _ _)
        · exact List.mem_cons_of_mem _ (List.mem_cons_of_mem _ (List.mem_cons_self _ _))
      · exact List.mem_cons_of_mem _ (List.mem_cons_of_mem _ (List.mem_cons_of_mem _
          (ih.mpr ⟨u, hu2, hor⟩)))

theorem allIndices_map_sub (L : List Tri) (m : ℕ) :
    allIndices (L.map fun t => (t.1 - m, t.2.1 - m, t.2.2 - m)) =
      (allIndices L).map (fun x => x - m) := by
  induction L with
  | nil => rfl
  | cons t ts ih => simp [allIndices, ih]

theorem filter_map_comm {α β : Type} (l : List α) (f : α → β) (p : β → Bool) :
    (l.map f).filter p = (l.filter (fun a => p (f a))).map f := by
  induction l with
  | nil => rfl
  | cons a l ih =>
    by_cases h : p (f a) = true <;> simp [List.filter_cons, h, ih]

theorem length_filter_range_ge (n k : ℕ) :
    ((List.range n).filter (fun i => decide (k ≤ i))).length = n - k := by
  induction n with
  | zero => simp
  | succ n ih =>
    rw [List.range_succ, List.filter_append, List.length_append, ih]
    by_cases h : k ≤ n <;> simp [List.filter_cons, h] <;> omega

theorem create_vertices_length (xr yr : ℚ) (M : List (List ℚ)) (T : Mat4) :
    (create_vertices xr yr M T).length = nrows M * ncols M := by
  simp [create_vertices]

theorem create_vertices_getD (xr yr : ℚ) (M : List (List ℚ)) (T : Mat4) (i : ℕ)
    (h : i < nrows M * ncols M) :
    (create_vertices xr yr M T).getD i v3zero =
      applyTransform T ⟨((i % ncols M : ℕ) : ℚ) * xr,
        ((nrows M - 1 - i / ncols M : ℕ) : ℚ) * yr,
        -entryAt M (i / ncols M) (i % ncols M)⟩ := by
  unfold create_vertices
  rw [List.getD_eq_getElem _ _ (by simpa using h)]
  simp

theorem applyTransform_base (v : Vec3) : applyTransform base_model_matrix v = v :=
  applyTransform_id v

theorem getD_replicate_lt {α : Type} (n i : ℕ) (a b : α) (h : i < n) :
    (List.replicate n a).getD i b = a := by
  induction n generalizing i with
  | zero => omega
  | succ n ih =>
    cases i with
    | zero => simp [List.replicate_succ]
    | succ i => simpa [List.replicate_succ] using ih i (by omega)

theorem nrows_replicate (R C : ℕ) (d : ℚ) :
    nrows (List.replicate R (List.replicate C d)) = R := by
  simp [nrows]

theorem ncols_replicate (R C : ℕ) (d : ℚ) (hR : 1 ≤ R) :
    ncols (List.replicate R (List.replicate C d)) = C := by
  cases R with
  | zero => omega
  | succ R => simp [ncols, List.replicate_succ]

theorem entryAt_replicate (R C r c : ℕ) (d : ℚ) (hr : r < R) (hc : c < C) :
    entryAt (List.replicate R (List.replicate C d)) r c = d := by
  unfold entryAt
  rw [getD_replicate_lt R r _ _ hr, getD_replicate_lt C c _ _ hc]

theorem flat_vertex_rc (R C row col : ℕ) (d xr yr : ℚ) (hR : 2 ≤ R) (hC : 2 ≤ C)
    (hrow : row < R) (hcol : col < C) :
    (create_vertices xr yr (List.replicate R (List.replicate C d))
        base_model_matrix).getD (C * row + col) v3zero =
      ⟨(col : ℚ) * xr, ((R - 1 - row : ℕ) : ℚ) * yr, -d⟩ := by
  have hi : C * row + col < nrows (List.replicate R (List.replicate C d)) *
      ncols (List.replicate R (List.replicate C d)) := by
    rw [nrows_replicate, ncols_replicate R C d (by omega)]
    exact flat_lt R C row col hrow hcol
  rw [create_vertices_getD _ _ _ _ _ hi, applyTransform_base]
  rw [nrows_replicate, ncols_replicate R C d (by omega)]
  rw [row_of_flat C row col (by omega) hcol, col_of_flat C row col hcol]
  rw [entryAt_replicate R C row col d hrow hcol]

theorem flat_cell_normal (R C : ℕ) (d xr yr : ℚ) (idx : ℕ) (hR : 2 ≤ R) (hC : 2 ≤ C)
    (h : idx < (R - 1) * (C - 1)) (t : Tri)
    (ht : t = (cell_triangle_pair C idx).1 ∨ t = (cell_triangle_pair C idx).2) :
    cross
      (vsub ((create_vertices xr yr (List.replicate R (List.replicate C d))
          base_model_matrix).getD t.1 v3zero)
        ((create_vertices xr yr (List.replicate R (List.replicate C d))
          base_model_matrix).getD t.2.2 v3zero))
      (vsub ((create_vertices xr yr (List.replicate R (List.replicate C d))
          base_model_matrix).getD t.1 v3zero)
        ((create_vertices xr yr (List.replicate R (List.replicate C d))
          base_model_matrix).getD t.2.1 v3zero)) = ⟨0, 0, -(xr * yr)⟩ := by
  obtain ⟨hpair, hq1, hb1⟩ := cell_triangle_pair_spec R C idx hC h
  have hcast : ((R - 1 - idx / (C - 1) : ℕ) : ℚ) =
      ((R - 1 - (idx / (C - 1) + 1) : ℕ) : ℚ) + 1 := by
    have hnat : R - 1 - idx / (C - 1) = (R - 1 - (idx / (C - 1) + 1)) + 1 := by omega
    rw [hnat]
    push_cast
    ring
  rcases ht with rfl | rfl <;> rw [hpair] <;> dsimp only
  · rw [flat_vertex_rc R C (idx / (C - 1)) (idx % (C - 1)) d xr yr hR hC (by omega) (by omega),
      flat_vertex_rc R C (idx / (C - 1)) (idx % (C - 1) + 1) d xr yr hR hC (by omega) (by omega),
      flat_vertex_rc R C (idx / (C - 1) + 1) (idx % (C - 1) + 1) d xr yr hR hC (by omega) (by omega),
      hcast]
    apply vec3_ext <;> simp [cross, vsub] <;> push_cast <;> ring
  · rw [flat_vertex_rc R C (idx / (C - 1)) (idx % (C - 1)) d xr yr hR hC (by omega) (by omega),
      flat_vertex_rc R C (idx / (C - 1) + 1) (idx % (C - 1)) d xr yr hR hC (by omega) (by omega),
      flat_vertex_rc R C (idx / (C - 1) + 1) (idx % (C - 1) + 1) d xr yr hR hC (by omega) (by omega),
      hcast]
    apply vec3_ext <;> simp [cross, vsub] <;> push_cast <;> ring

/-- C2: for every depth matrix with both dimensions at least 2, the
triangulation produces exactly `2 (R-1) (C-1)` triangles, each with three
mutually distinct vertex indices below `R * C`; the triangulation depends
only on the grid shape, so it also triangulates the constant-depth field
of the same shape, and on that flat field every per-triangle normal
computed by `create_normals` equals `(0, 0, -(x_resolution *
y_resolution))` — in particular all normals share the same (negative)
vertical sign, i.e. the winding is consistent. -/
theorem triangulation_properties (M : List (List ℚ)) (d : ℚ) (T : List Tri)
    (hT : create_triangles M = some T) :
    T.length = 2 * ((nrows M - 1) * (ncols M - 1)) ∧
    T.all (fun t => decide (t.1 < nrows M * ncols M ∧ t.2.1 < nrows M * ncols M ∧
      t.2.2 < nrows M * ncols M ∧ t.1 ≠ t.2.1 ∧ t.1 ≠ t.2.2 ∧ t.2.1 ≠ t.2.2)) = true ∧
    create_triangles (List.replicate (nrows M) (List.replicate (ncols M) d)) = some T ∧
    (create_normals (create_vertices x_resolution y_resolution
        (List.replicate (nrows M) (List.replicate (ncols M) d)) base_model_matrix) T).all
      (fun nv => decide (nv = ⟨0, 0, -(x_resolution * y_resolution)⟩)) = true ∧
    -(x_resolution * y_resolution) < 0 := by
  obtain ⟨hR, hC, hTeq⟩ := create_triangles_some M T hT
  refine ⟨?_, ?_, ?_, ?_, by norm_num [x_resolution, y_resolution]⟩
  · rw [hTeq, pairJoin_length, List.length_map, List.length_range]
  · rw [List.all_eq_true]
    intro t ht
    obtain ⟨idx, hidx, hor⟩ := mem_create_triangles M T t hT ht
    have hok := cell_triangle_ok (nrows M) (ncols M) idx hC hidx t hor
    simpa [decide_eq_true_eq] using hok
  · unfold create_triangles
    rw [nrows_replicate, ncols_replicate _ _ _ (by omega)]
    rw [if_neg (by omega), if_neg (by omega), hTeq]
  · rw [List.all_eq_true]
    intro nv hnv
    unfold create_normals at hnv
    rw [List.mem_map] at hnv
    obtain ⟨t, ht, rfl⟩ := hnv
    obtain ⟨idx, hidx, hor⟩ := mem_create_triangles M T t hT ht
    rw [decide_eq_true_eq]
    exact flat_cell_normal (nrows M) (ncols M) d x_resolution y_resolution idx hR hC hidx t hor

/-- C2 (witness): the triangulation theorem applied to the concrete 2x2
matrix `[[1,2],[3,4]]` with flat depth 7. -/
theorem triangulation_properties_witness :
    create_triangles [[1, 2], [3, 4]] = some [(0, 3, 1), (3, 0, 2)] ∧
    (([(0, 3, 1), (3, 0, 2)] : List Tri).length =
      2 * ((nrows [[1, 2], [3, 4]] - 1) * (ncols [[1, 2], [3, 4]] - 1)) ∧
    ([(0, 3, 1), (3, 0, 2)] : List Tri).all (fun t =>
      decide (t.1 < nrows [[1, 2], [3, 4]] * ncols [[1, 2], [3, 4]] ∧
        t.2.1 < nrows [[1, 2], [3, 4]] * ncols [[1, 2], [3, 4]] ∧
        t.2.2 < nrows [[1, 2], [3, 4]] * ncols [[1, 2], [3, 4]] ∧
        t.1 ≠ t.2.1 ∧ t.1 ≠ t.2.2 ∧ t.2.1 ≠ t.2.2)) = true ∧
    create_triangles (List.replicate (nrows [[1, 2], [3, 4]])
      (List.replicate (ncols [[1, 2], [3, 4]]) 7)) = some [(0, 3, 1), (3, 0, 2)] ∧
    (create_normals (create_vertices x_resolution y_resolution
        (List.replicate (nrows [[1, 2], [3, 4]]) (List.replicate (ncols [[1, 2], [3, 4]]) 7))
        base_model_matrix) [(0, 3, 1), (3, 0, 2)]).all
      (fun nv => decide (nv = ⟨0, 0, -(x_resolution * y_resolution)⟩)) = true ∧
    -(x_resolution * y_resolution) < 0) :=
  ⟨by decide, triangulation_properties [[1, 2], [3, 4]] 7 [(0, 3, 1), (3, 0, 2)] (by decide)⟩

theorem length_filter_congr {α : Type} (l : List α) (p q : α → Bool)
    (h : ∀ a ∈ l, p a = q a) : (l.filter p).length = (l.filter q).length := by
  rw [List.filter_congr h]

theorem keptVertices_length_pipeline (tanTheta pointer_position : ℚ) (M : List (List ℚ)) (k : ℕ)
    (hiff : ∀ i, i < nrows M * ncols M →
      ((((create_vertices x_resolution y_resolution M base_model_matrix).getD i v3zero).y <
        cutoff_depth tanTheta pointer_position) ↔ k ≤ i)) :
    (keptVertices tanTheta pointer_position
      (create_vertices x_resolution y_resolution M base_model_matrix)).length =
      nrows M * ncols M - k := by
  have key : ∀ p : ℕ → Bool,
      (∀ i ∈ List.range (nrows M * ncols M), p i = decide (k ≤ i)) →
      ((List.range (nrows M * ncols M)).filter p).length = nrows M * ncols M - k := by
    intro p hp
    rw [List.filter_congr hp]
    exact length_filter_range_ge _ _
  unfold keptVertices create_vertices
  rw [filter_map_comm, List.length_map]
  apply key
  intro i hi
  rw [List.mem_range] at hi
  simp only [decide_eq_decide]
  have h2 := hiff i hi
  rw [create_vertices_getD _ _ _ _ i hi] at h2
  exact h2

/-- C4: for every pipeline mesh (vertices built from the depth matrix with
the identity base placement, triangles from the same matrix) whose trim
leaves at least one triangle, a triangle survives the trim if and only if
all three of its vertices survive (no partial clipping), and after the
renumbering the surviving triangle indices are densely packed: their
minimum is 0 and their maximum is the surviving vertex count minus 1. -/
theorem trim_dense_renumbering (tanTheta pointer_position : ℚ) (M : List (List ℚ))
    (T : List Tri) (keptV : List Vec3) (newT : List Tri)
    (hT : create_triangles M = some T)
    (hRem : remove_unused_pins tanTheta pointer_position
      (create_vertices x_resolution y_resolution M base_model_matrix) T = some (keptV, newT)) :
    keptTriangles tanTheta pointer_position
        (create_vertices x_resolution y_resolution M base_model_matrix) T =
      T.filter (fun t =>
        vertexSurvives tanTheta pointer_position
          (create_vertices x_resolution y_resolution M base_model_matrix) t.1 &&
        (vertexSurvives tanTheta pointer_position
          (create_vertices x_resolution y_resolution M base_model_matrix) t.2.1 &&
         vertexSurvives tanTheta pointer_position
          (create_vertices x_resolution y_resolution M base_model_matrix) t.2.2)) ∧
    natListMin (allIndices newT) = some 0 ∧
    natListMax (allIndices newT) = some (keptV.length - 1) := by
  obtain ⟨hR, hC, hTeq⟩ := create_triangles_some M T hT
  have hY : ∀ i, i < nrows M * ncols M →
      ((create_vertices x_resolution y_resolution M base_model_matrix).getD i v3zero).y =
        ((nrows M - 1 - i / ncols M : ℕ) : ℚ) * y_resolution := by
    intro i hi
    rw [create_vertices_getD _ _ _ _ i hi, applyTransform_base]
  have hremIff : ∀ i : ℕ, i ∈ removedIndices tanTheta pointer_position
      (create_vertices x_resolution y_resolution M base_model_matrix) ↔
      (i < nrows M * ncols M ∧
       ¬ ((create_vertices x_resolution y_resolution M base_model_matrix).getD i v3zero).y <
         cutoff_depth tanTheta pointer_position) := by
    intro i
    unfold removedIndices
    simp [List.mem_filter, create_vertices_length]
  have hsurv2 : ∀ i, i < nrows M * ncols M →
      ((i ∉ removedIndices tanTheta pointer_position
        (create_vertices x_resolution y_resolution M base_model_matrix)) ↔
       ((create_vertices x_resolution y_resolution M base_model_matrix).getD i v3zero).y <
         cutoff_depth tanTheta pointer_position) := by
    intro i hi
    rw [hremIff i]
    constructor
    · intro h
      by_contra hnP
      exact h ⟨hi, hnP⟩
    · intro hP hmem
      exact hmem.2 hP
  have hmono : ∀ j j2 : ℕ, j ≤ j2 →
      ((nrows M - 1 - j2 : ℕ) : ℚ) * y_resolution ≤
        ((nrows M - 1 - j : ℕ) : ℚ) * y_resolution := by
    intro j j2 hj
    have h1 : nrows M - 1 - j2 ≤ nrows M - 1 - j := by omega
    have h2 : ((nrows M - 1 - j2 : ℕ) : ℚ) ≤ ((nrows M - 1 - j : ℕ) : ℚ) := by exact_mod_cast h1
    have hy : (0 : ℚ) ≤ y_resolution := by norm_num [y_resolution]
    exact mul_le_mul_of_nonneg_right h2 hy
  have hsplitKT : ∀ t, t ∈ keptTriangles tanTheta pointer_position
      (create_vertices x_resolution y_resolution M base_model_matrix) T →
      t ∈ T ∧
      t.1 ∉ removedIndices tanTheta pointer_position
        (create_vertices x_resolution y_resolution M base_model_matrix) ∧
      t.2.1 ∉ removedIndices tanTheta pointer_position
        (create_vertices x_resolution y_resolution M base_model_matrix) ∧
      t.2.2 ∉ removedIndices tanTheta pointer_position
        (create_vertices x_resolution y_resolution M base_model_matrix) := by
    intro t htk
    unfold keptTriangles at htk
    rw [List.mem_filter] at htk
    obtain ⟨h1, h2⟩ := htk
    rw [decide_eq_true_eq, not_or, not_or] at h2
    exact ⟨h1, h2.1, h2.2.1, h2.2.2⟩
  have hpart1 : keptTriangles tanTheta pointer_position
      (create_vertices x_resolution y_resolution M base_model_matrix) T =
      T.filter (fun t =>
        vertexSurvives tanTheta pointer_position
          (create_vertices x_resolution y_resolution M base_model_matrix) t.1 &&
        (vertexSurvives tanTheta pointer_position
          (create_vertices x_resolution y_resolution M base_model_matrix) t.2.1 &&
         vertexSurvives tanTheta pointer_position
          (create_vertices x_resolution y_resolution M base_model_matrix) t.2.2)) := by
    unfold keptTriangles
    apply List.filter_congr
    intro t ht
    obtain ⟨idx, hidx, hor⟩ := mem_create_triangles M T t hT ht
    have hok := cell_triangle_ok (nrows M) (ncols M) idx hC hidx t hor
    unfold vertexSurvives
    rw [← Bool.decide_and, ← Bool.decide_and, decide_eq_decide, not_or, not_or]
    rw [hsurv2 t.1 hok.1, hsurv2 t.2.1 hok.2.1, hsurv2 t.2.2 hok.2.2.1]
  have hKTne : keptTriangles tanTheta pointer_position
      (create_vertices x_resolution y_resolution M base_model_matrix) T ≠ [] := by
    intro hnil
    unfold remove_unused_pins at hRem
    rw [hnil] at hRem
    simp [allIndices, natListMin] at hRem
  obtain ⟨t0, ht0⟩ := List.exists_mem_of_ne_nil _ hKTne
  obtain ⟨ht0T, hs01, hs02, hs03⟩ := hsplitKT t0 ht0
  obtain ⟨idx0, hidx0, hor0⟩ := mem_create_triangles M T t0 hT ht0T
  obtain ⟨hpair0, hq01, hb01⟩ := cell_triangle_pair_spec (nrows M) (ncols M) idx0 hC hidx0
  have hkeepq0 : ((nrows M - 1 - idx0 / (ncols M - 1) : ℕ) : ℚ) * y_resolution <
      cutoff_depth tanTheta pointer_position := by
    rcases hor0 with heq | heq
    · have hx : t0.1 = ncols M * (idx0 / (ncols M - 1)) + idx0 % (ncols M - 1) := by
        rw [heq, hpair0]
      have hin : t0.1 < nrows M * ncols M := by
        rw [hx]
        exact flat_lt _ _ _ _ (by omega) (by omega)
      have hlt := (hsurv2 t0.1 hin).mp hs01
      rw [hY t0.1 hin, hx, row_of_flat _ _ _ (by omega) (by omega)] at hlt
      exact hlt
    · have hx : t0.2.1 = ncols M * (idx0 / (ncols M - 1)) + idx0 % (ncols M - 1) := by
        rw [heq, hpair0]
      have hin : t0.2.1 < nrows M * ncols M := by
        rw [hx]
        exact flat_lt _ _ _ _ (by omega) (by omega)
      have hlt := (hsurv2 t0.2.1 hin).mp hs02
      rw [hY t0.2.1 hin, hx, row_of_flat _ _ _ (by omega) (by omega)] at hlt
      exact hlt
  have hex : ∃ j : ℕ, ((nrows M - 1 - j : ℕ) : ℚ) * y_resolution <
      cutoff_depth tanTheta pointer_position := ⟨idx0 / (ncols M - 1), hkeepq0⟩
  have hfs := Nat.find_spec hex
  have hr0le : Nat.find hex ≤ idx0 / (ncols M - 1) := Nat.find_min' hex hkeepq0
  have hr0R : Nat.find hex + 2 ≤ nrows M := by omega
  have hkeep_iff : ∀ j : ℕ,
      ((((nrows M - 1 - j : ℕ) : ℚ) * y_resolution <
        cutoff_depth tanTheta pointer_position) ↔ Nat.find hex ≤ j) := by
    intro j
    constructor
    · intro hj
      by_contra hlt
      push_neg at hlt
      exact Nat.find_min hex hlt hj
    · intro hj
      exact lt_of_le_of_lt (hmono (Nat.find hex) j hj) hfs
  have hkeepIdx : ∀ i, i < nrows M * ncols M →
      ((i ∉ removedIndices tanTheta pointer_position
        (create_vertices x_resolution y_resolution M base_model_matrix)) ↔
       Nat.find hex ≤ i / ncols M) := by
    intro i hi
    rw [hsurv2 i hi, hY i hi, hkeep_iff]
  have hminKT : natListMin (allIndices (keptTriangles tanTheta pointer_position
      (create_vertices x_resolution y_resolution M base_model_matrix) T)) =
      some (ncols M * Nat.find hex) := by
    have hidxm : Nat.find hex * (ncols M - 1) < (nrows M - 1) * (ncols M - 1) := by
      have hmul := Nat.mul_le_mul_right (ncols M - 1)
        (show Nat.find hex + 1 ≤ nrows M - 1 by omega)
      have he : (Nat.find hex + 1) * (ncols M - 1) =
          Nat.find hex * (ncols M - 1) + (ncols M - 1) := by ring
      omega
    obtain ⟨hpairm, hqm1, hbm1⟩ :=
      cell_triangle_pair_spec (nrows M) (ncols M) (Nat.find hex * (ncols M - 1)) hC hidxm
    have hdiv : Nat.find hex * (ncols M - 1) / (ncols M - 1) = Nat.find hex :=
      Nat.mul_div_cancel _ (by omega)
    have hmodm : Nat.find hex * (ncols M - 1) % (ncols M - 1) = 0 := Nat.mul_mod_left _ _
    rw [hdiv, hmodm] at hpairm
    have hmemT : (cell_triangle_pair (ncols M) (Nat.find hex * (ncols M - 1))).1 ∈ T := by
      rw [hTeq, mem_pairJoin]
      exact ⟨cell_triangle_pair (ncols M) (Nat.find hex * (ncols M - 1)),
        List.mem_map.mpr ⟨_, List.mem_range.mpr hidxm, rfl⟩, Or.inl rfl⟩
    have hsurvive : ∀ row col : ℕ, Nat.find hex ≤ row → row < nrows M → col < ncols M →
        (ncols M * row + col) ∉ removedIndices tanTheta pointer_position
          (create_vertices x_resolution y_resolution M base_model_matrix) := by
      intro row col hrow hrowR hcol
      have hin := flat_lt (nrows M) (ncols M) row col hrowR hcol
      refine (hkeepIdx _ hin).mpr ?_
      rw [row_of_flat _ _ _ (by omega) hcol]
      exact hrow
    have hmemKT : (cell_triangle_pair (ncols M) (Nat.find hex * (ncols M - 1))).1 ∈
        keptTriangles tanTheta pointer_position
          (create_vertices x_resolution y_resolution M base_model_matrix) T := by
      unfold keptTriangles
      rw [List.mem_filter]
      refine ⟨hmemT, ?_⟩
      rw [decide_eq_true_eq, not_or, not_or, hpairm]
      dsimp only
      exact ⟨hsurvive _ _ (by omega) (by omega) (by omega),
        hsurvive _ _ (by omega) (by omega) (by omega),
        hsurvive _ _ (by omega) (by omega) (by omega)⟩
    apply natListMin_eq_of
    · rw [mem_allIndices]
      refine ⟨_, hmemKT, ?_⟩
      rw [hpairm]
      dsimp only
      left
      omega
    · intro x hx
      rw [mem_allIndices] at hx
      obtain ⟨t, htk, hxor⟩ := hx
      obtain ⟨htT, hsv1, hsv2x, hsv3⟩ := hsplitKT t htk
      obtain ⟨idx, hidx, hor⟩ := mem_create_triangles M T t hT htT
      obtain ⟨hpair, hq1, hb1⟩ := cell_triangle_pair_spec (nrows M) (ncols M) idx hC hidx
      have hstep : ∀ row col : ℕ, row < nrows M → col < ncols M →
          (ncols M * row + col) ∉ removedIndices tanTheta pointer_position
            (create_vertices x_resolution y_resolution M base_model_matrix) →
          ncols M * Nat.find hex ≤ ncols M * row + col := by
        intro row col hrowR hcol hnr
        have hin := flat_lt (nrows M) (ncols M) row col hrowR hcol
        have hge := (hkeepIdx _ hin).mp hnr
        rw [row_of_flat _ _ _ (by omega) hcol] at hge
        have hmul := Nat.mul_le_mul_left (ncols M) hge
        omega
      rcases hor with rfl | rfl <;> rw [hpair] at hxor hsv1 hsv2x hsv3 <;>
        dsimp only at hxor hsv1 hsv2x hsv3 <;>
        rcases hxor with rfl | rfl | rfl
      · exact hstep _ _ (by omega) (by omega) hsv1
      · exact hstep _ _ (by omega) (by omega) hsv2x
      · exact hstep _ _ (by omega) (by omega) hsv3
      · exact hstep _ _ (by omega) (by omega) hsv1
      · exact hstep _ _ (by omega) (by omega) hsv2x
      · exact hstep _ _ (by omega) (by omega) hsv3
  have hmaxKT : natListMax (allIndices (keptTriangles tanTheta pointer_position
      (create_vertices x_resolution y_resolution M base_model_matrix) T)) =
      some (nrows M * ncols M - 1) := by
    have hpos : 0 < (nrows M - 1) * (ncols M - 1) :=
      Nat.mul_pos (by omega) (by omega)
    have hidxL : (nrows M - 1) * (ncols M - 1) - 1 < (nrows M - 1) * (ncols M - 1) := by
      omega
    have hsplit : (nrows M - 1) * (ncols M - 1) - 1 =
        (ncols M - 1) * (nrows M - 2) + (ncols M - 2) := by
      have e1 : (nrows M - 1) * (ncols M - 1) = (ncols M - 1) * ((nrows M - 2) + 1) := by
        rw [Nat.mul_comm]
        congr 1
        omega
      have e2 : (ncols M - 1) * ((nrows M - 2) + 1) =
          (ncols M - 1) * (nrows M - 2) + (ncols M - 1) := by ring
      omega
    have hdivL : ((nrows M - 1) * (ncols M - 1) - 1) / (ncols M - 1) = nrows M - 2 := by
      rw [hsplit, Nat.mul_add_div (by omega)]
      simp [Nat.div_eq_of_lt (show ncols M - 2 < ncols M - 1 by omega)]
    have hmodL : ((nrows M - 1) * (ncols M - 1) - 1) % (ncols M - 1) = ncols M - 2 := by
      rw [hsplit, Nat.mul_add_mod]
      exact Nat.mod_eq_of_lt (by omega)
    obtain ⟨hpairL, hqL1, hbL1⟩ := cell_triangle_pair_spec (nrows M) (ncols M)
      ((nrows M - 1) * (ncols M - 1) - 1) hC hidxL
    rw [hdivL, hmodL] at hpairL
    have hmemTL : (cell_triangle_pair (ncols M) ((nrows M - 1) * (ncols M - 1) - 1)).1 ∈ T := by
      rw [hTeq, mem_pairJoin]
      exact ⟨cell_triangle_pair (ncols M) ((nrows M - 1) * (ncols M - 1) - 1),
        List.mem_map.mpr ⟨_, List.mem_range.mpr hidxL, rfl⟩, Or.inl rfl⟩
    have hsurvive : ∀ row col : ℕ, Nat.find hex ≤ row → row < nrows M → col < ncols M →
        (ncols M * row + col) ∉ removedIndices tanTheta pointer_position
          (create_vertices x_resolution y_resolution M base_model_matrix) := by
      intro row col hrow hrowR hcol
      have hin := flat_lt (nrows M) (ncols M) row col hrowR hcol
      refine (hkeepIdx _ hin).mpr ?_
      rw [row_of_flat _ _ _ (by omega) hcol]
      exact hrow
    have hmemKTL : (cell_triangle_pair (ncols M) ((nrows M - 1) * (ncols M - 1) - 1)).1 ∈
        keptTriangles tanTheta pointer_position
          (create_vertices x_resolution y_resolution M base_model_matrix) T := by
      unfold keptTriangles
      rw [List.mem_filter]
      refine ⟨hmemTL, ?_⟩
      rw [decide_eq_true_eq, not_or, not_or, hpairL]
      dsimp only
      exact ⟨hsurvive _ _ (by omega) (by omega) (by omega),
        hsurvive _ _ (by omega) (by omega) (by omega),
        hsurvive _ _ (by omega) (by omega) (by omega)⟩
    have hprod1 : ncols M * ((nrows M - 2) + 1) = ncols M * (nrows M - 2) + ncols M := by ring
    have hprod2 : ncols M * nrows M = ncols M * (nrows M - 1) + ncols M := by
      calc ncols M * nrows M = ncols M * ((nrows M - 1) + 1) := by
            rw [show (nrows M - 1) + 1 = nrows M from by omega]
        _ = ncols M * (nrows M - 1) + ncols M := by ring
    have hprod3 : ncols M * ((nrows M - 1) + 1) = ncols M * (nrows M - 1) + ncols M := by ring
    have hprod4 : nrows M * ncols M = ncols M * nrows M := Nat.mul_comm _ _
    have hprod5 : ncols M * (nrows M - 1) = ncols M * (nrows M - 2) + ncols M := by
      calc ncols M * (nrows M - 1) = ncols M * ((nrows M - 2) + 1) := by
            rw [show (nrows M - 2) + 1 = nrows M - 1 from by omega]
        _ = ncols M * (nrows M - 2) + ncols M := by ring
    apply natListMax_eq_of
    · rw [mem_allIndices]
      refine ⟨_, hmemKTL, ?_⟩
      rw [hpairL]
      dsimp only
      right
      left
      omega
    · intro x hx
      rw [mem_allIndices] at hx
      obtain ⟨t, htk, hxor⟩ := hx
      obtain ⟨htT, hsv1, hsv2x, hsv3⟩ := hsplitKT t htk
      obtain ⟨idx, hidx, hor⟩ := mem_create_triangles M T t hT htT
      have hok := cell_triangle_ok (nrows M) (ncols M) idx hC hidx t hor
      rcases hxor with rfl | rfl | rfl
      · omega
      · omega
      · omega
  unfold remove_unused_pins at hRem
  rw [hminKT] at hRem
  simp only [Option.some.injEq, Prod.mk.injEq] at hRem
  obtain ⟨hkV, hnT⟩ := hRem
  have hlenkV : keptV.length = nrows M * ncols M - ncols M * Nat.find hex := by
    rw [← hkV]
    apply keptVertices_length_pipeline
    intro i hi
    rw [hY i hi, hkeep_iff]
    constructor
    · intro hj
      have := (Nat.le_div_iff_mul_le (show 0 < ncols M by omega)).mp hj
      have hcomm : Nat.find hex * ncols M = ncols M * Nat.find hex := Nat.mul_comm _ _
      omega
    · intro hj
      refine (Nat.le_div_iff_mul_le (show 0 < ncols M by omega)).mpr ?_
      have hcomm : Nat.find hex * ncols M = ncols M * Nat.find hex := Nat.mul_comm _ _
      omega
  have hbound : ncols M * Nat.find hex + 2 ≤ nrows M * ncols M := by
    have hmul := Nat.mul_le_mul_left (ncols M)
      (show Nat.find hex + 1 ≤ nrows M - 1 by omega)
    have e1 : ncols M * (Nat.find hex + 1) = ncols M * Nat.find hex + ncols M := by ring
    have e2 : ncols M * nrows M = ncols M * (nrows M - 1) + ncols M := by
      calc ncols M * nrows M = ncols M * ((nrows M - 1) + 1) := by
            rw [show (nrows M - 1) + 1 = nrows M from by omega]
        _ = ncols M * (nrows M - 1) + ncols M := by ring
    have e3 : nrows M * ncols M = ncols M * nrows M := Nat.mul_comm _ _
    omega
  refine ⟨hpart1, ?_, ?_⟩
  · rw [← hnT, allIndices_map_sub]
    apply natListMin_eq_of
    · rw [List.mem_map]
      exact ⟨ncols M * Nat.find hex, natListMin_mem _ _ hminKT, by omega⟩
    · intro x hx
      exact Nat.zero_le x
  · rw [← hnT, allIndices_map_sub]
    apply natListMax_eq_of
    · rw [List.mem_map]
      refine ⟨nrows M * ncols M - 1, natListMax_mem _ _ hmaxKT, ?_⟩
      rw [hlenkV]
      omega
    · intro y hy
      rw [List.mem_map] at hy
      obtain ⟨x, hxmem, rfl⟩ := hy
      have hxle := natListMax_ge _ _ hmaxKT x hxmem
      rw [hlenkV]
      omega

theorem grid32_trim_eval :
    remove_unused_pins 0 (1/20)
      (create_vertices x_resolution y_resolution [[0, 0], [0, 0], [0, 0]] base_model_matrix)
      [(0, 3, 1), (3, 0, 2), (2, 5, 3), (5, 2, 4)] =
      some ([⟨0, y_resolution, 0⟩, ⟨x_resolution, y_resolution, 0⟩,
             ⟨0, 0, 0⟩, ⟨x_resolution, 0, 0⟩], [(0, 3, 1), (3, 0, 2)]) := by
  rw [grid32_vertices_eval]
  have h2 : removedIndices 0 (1/20)
      [⟨0, 2 * y_resolution, 0⟩, ⟨x_resolution, 2 * y_resolution, 0⟩,
       ⟨0, y_resolution, 0⟩, ⟨x_resolution, y_resolution, 0⟩,
       ⟨0, 0, 0⟩, ⟨x_resolution, 0, 0⟩] = [0, 1] := by
    have hr : List.range (([⟨0, 2 * y_resolution, 0⟩, ⟨x_resolution, 2 * y_resolution, 0⟩,
        ⟨0, y_resolution, 0⟩, ⟨x_resolution, y_resolution, 0⟩,
        ⟨0, 0, 0⟩, ⟨x_resolution, 0, 0⟩] : List Vec3).length) = [0, 1, 2, 3, 4, 5] := rfl
    unfold removedIndices
    rw [hr]
    norm_num [List.filter_cons, cutoff_depth,
      height_from_measured_pin_to_rotation_axis, v3zero, y_resolution]
  have h3 : keptTriangles 0 (1/20)
      [⟨0, 2 * y_resolution, 0⟩, ⟨x_resolution, 2 * y_resolution, 0⟩,
       ⟨0, y_resolution, 0⟩, ⟨x_resolution, y_resolution, 0⟩,
       ⟨0, 0, 0⟩, ⟨x_resolution, 0, 0⟩]
      [(0, 3, 1), (3, 0, 2), (2, 5, 3), (5, 2, 4)] = [(2, 5, 3), (5, 2, 4)] := by
    unfold keptTriangles
    rw [h2]
    norm_num [List.filter_cons]
  have h1 : keptVertices 0 (1/20)
      [⟨0, 2 * y_resolution, 0⟩, ⟨x_resolution, 2 * y_resolution, 0⟩,
       ⟨0, y_resolution, 0⟩, ⟨x_resolution, y_resolution, 0⟩,
       ⟨0, 0, 0⟩, ⟨x_resolution, 0, 0⟩] =
      [⟨0, y_resolution, 0⟩, ⟨x_resolution, y_resolution, 0⟩,
       ⟨0, 0, 0⟩, ⟨x_resolution, 0, 0⟩] := by
    norm_num [keptVertices, List.filter_cons, cutoff_depth,
      height_from_measured_pin_to_rotation_axis, y_resolution]
  unfold remove_unused_pins
  rw [h1, h3]
  rfl

/-- Witness for the dense-renumbering invariant: on the 3x2 zero grid with
recline tangent 0 and pointer position `1/20` metres the trim drops the
back row, two of the four triangles survive (both fully, none partially
clipped), and the renumbered indices run densely from 0 to
`len(vertices) - 1 = 3`. -/
theorem trim_dense_renumbering_witness :
    create_triangles [[0, 0], [0, 0], [0, 0]] =
      some [(0, 3, 1), (3, 0, 2), (2, 5, 3), (5, 2, 4)] ∧
    remove_unused_pins 0 (1/20)
      (create_vertices x_resolution y_resolution [[0, 0], [0, 0], [0, 0]] base_model_matrix)
      [(0, 3, 1), (3, 0, 2), (2, 5, 3), (5, 2, 4)] =
      some ([⟨0, y_resolution, 0⟩, ⟨x_resolution, y_resolution, 0⟩,
             ⟨0, 0, 0⟩, ⟨x_resolution, 0, 0⟩], [(0, 3, 1), (3, 0, 2)]) ∧
    (keptTriangles 0 (1/20)
        (create_vertices x_resolution y_resolution [[0, 0], [0, 0], [0, 0]] base_model_matrix)
        [(0, 3, 1), (3, 0, 2), (2, 5, 3), (5, 2, 4)] =
      ([(0, 3, 1), (3, 0, 2), (2, 5, 3), (5, 2, 4)] : List Tri).filter (fun t =>
        vertexSurvives 0 (1/20)
          (create_vertices x_resolution y_resolution [[0, 0], [0, 0], [0, 0]] base_model_matrix)
          t.1 &&
        (vertexSurvives 0 (1/20)
          (create_vertices x_resolution y_resolution [[0, 0], [0, 0], [0, 0]] base_model_matrix)
          t.2.1 &&
         vertexSurvives 0 (1/20)
          (create_vertices x_resolution y_resolution [[0, 0], [0, 0], [0, 0]] base_model_matrix)
          t.2.2)) ∧
    natListMin (allIndices [(0, 3, 1), (3, 0, 2)]) = some 0 ∧
    natListMax (allIndices [(0, 3, 1), (3, 0, 2)]) =
      some (([⟨0, y_resolution, 0⟩, ⟨x_resolution, y_resolution, 0⟩,
              ⟨0, 0, 0⟩, ⟨x_resolution, 0, 0⟩] : List Vec3).length - 1)) :=
  ⟨by decide, grid32_trim_eval,
   trim_dense_renumbering 0 (1/20) [[0, 0], [0, 0], [0, 0]] _ _ _ (by decide) grid32_trim_eval⟩
